import Mathlib

/-!
Shallow embedding of the WhatsApp chat-export parser (parser module:
message-start patterns, parseDateTime, analyzeMessage, parseChatFile,
extractMetadata).  Text is modelled as List Char; JavaScript NaN/undefined
values are modelled with Option layers; a thrown runtime exception is
modelled as a none result.  The anchored regexes are hand-derived into
deterministic matchers (each pattern admits no backtracking ambiguity).
-/

namespace WBP

/-- ECMAScript WhiteSpace plus LineTerminator code points (the set matched
by the regex class \s, which also backs String.prototype.trim). -/
def isWsCh (c : Char) : Bool :=
  decide (c.toNat ∈ ([0x9, 0xA, 0xB, 0xC, 0xD, 0x20, 0xA0, 0x1680,
      0x2028, 0x2029, 0x202F, 0x205F, 0x3000, 0xFEFF] : List Nat))
  || (decide (0x2000 ≤ c.toNat) && decide (c.toNat ≤ 0x200A))

/-- The character class [\s ] used by the dialect-B time patterns;
U+202F is already contained in \s, so this coincides with isWsCh. -/
def timeSepCh (c : Char) : Bool := isWsCh c

/-- JS \d, the ASCII digit class, tested on code points. -/
def isDigitCh (c : Char) : Bool :=
  decide (48 ≤ c.toNat) && decide (c.toNat ≤ 57)

/-- Characters matched by the regex metacharacter . (anything except a
LineTerminator; the patterns do not use the s flag). -/
def isDotCh (c : Char) : Bool :=
  !(c == '\n' || c == '\r' || decide (c.toNat = 0x2028) || decide (c.toNat = 0x2029))

/-- line.replace of the invisible-character class [‎‏‪-‮]
with the empty string, i.e. a filter. -/
def stripInvisible (l : List Char) : List Char :=
  l.filter (fun c =>
    !(decide (c.toNat = 0x200E) || decide (c.toNat = 0x200F)
      || (decide (0x202A ≤ c.toNat) && decide (c.toNat ≤ 0x202E))))

/-- String.prototype.trim: strip leading and trailing JS whitespace. -/
def jsTrim (l : List Char) : List Char :=
  ((l.dropWhile isWsCh).reverse.dropWhile isWsCh).reverse

/-- String.prototype.split with a single-character (or one-character-class)
separator: JS yields the list of maximal separator-free chunks, with empty
chunks kept ("".split gives [""]). -/
def splitOn (p : Char → Bool) : List Char → List (List Char)
  | [] => [[]]
  | c :: r =>
    if p c then [] :: splitOn p r
    else
      match splitOn p r with
      | [] => [[c]]
      | h :: t => (c :: h) :: t

/-- Decimal value of a digit string. -/
def digitsVal (l : List Char) : Nat :=
  l.foldl (fun a c => a * 10 + (c.toNat - '0'.toNat)) 0

/-- parseInt on the strings this parser feeds it (digit fields of a date
token, possibly with trailing junk): leading whitespace skipped, then the
maximal leading digit run; none models NaN.  (Signs, hex prefixes and
non-integer forms never arise from splitting a date token on slashes.) -/
def jsParseInt (s : List Char) : Option Nat :=
  let t := s.dropWhile isWsCh
  let d := t.takeWhile isDigitCh
  if d.isEmpty then none else some (digitsVal d)

/-- Number(...) coercion on the strings this parser feeds it (colon-split
fields of a time token): whitespace-only and empty strings give 0, digit
strings their value, anything else NaN (= none). -/
def jsNumber (s : List Char) : Option Nat :=
  let t := jsTrim s
  if t.isEmpty then some 0
  else if t.all isDigitCh then some (digitsVal t) else none

/-- String(...) on a value that is a number, NaN, or undefined. -/
def jstr (v : Option (Option Nat)) : List Char :=
  match v with
  | none => "undefined".data
  | some none => "NaN".data
  | some (some n) => (toString n).data

/-- Number.prototype.toString on a number or NaN. -/
def jnumStr (v : Option Nat) : List Char :=
  match v with
  | none => "NaN".data
  | some n => (toString n).data

/-- String.prototype.padStart(2, the zero character). -/
def padStart2 (s : List Char) : List Char :=
  if 2 ≤ s.length then s else List.replicate (2 - s.length) '0' ++ s

/-- JS strict greater-than against 12, where the left value may be NaN
(NaN compares false). -/
def jGt12 (v : Option Nat) : Bool :=
  match v with
  | some n => decide (12 < n)
  | none => false

/-- Lines 44-68 of the parser: resolve which slash-separated field of the
date token is the day and which the month.  Returns (day, month); none
models the JS undefined obtained by indexing past the end. -/
def resolveDayMonth (parts : List (List Char)) (formatType : Nat) :
    Option (List Char) × Option (List Char) :=
  let first := (parts.get? 0).bind jsParseInt
  let second := (parts.get? 1).bind jsParseInt
  if jGt12 first then (parts.get? 0, parts.get? 1)
  else if jGt12 second then (parts.get? 1, parts.get? 0)
  else if formatType = 2 then (parts.get? 1, parts.get? 0)
  else (parts.get? 0, parts.get? 1)

/-- Lines 70-82 of the parser: split the time token on [\s ], split
the clock part on colons, coerce with Number, default seconds to 0, and
convert 12-hour to 24-hour.  Result is (hours, minutes, seconds); the two
Option layers model undefined (outer) and NaN (inner). -/
def parseTimeHMS (timeStr : List Char) : Option (Option Nat) × Option (Option Nat) × Nat :=
  let ws := splitOn timeSepCh timeStr
  let time := ws.headD []
  let period := ws.get? 1
  let timeParts := (splitOn (fun c => c == ':') time).map jsNumber
  let hours0 := timeParts.get? 0
  let minutes := timeParts.get? 1
  let seconds : Nat :=
    match timeParts.get? 2 with
    | some (some n) => n
    | _ => 0
  let hours : Option (Option Nat) :=
    if period = some ("PM".data) ∧ hours0 ≠ some (some 12) then
      match hours0 with
      | some (some n) => some (some (n + 12))
      | _ => some none
    else if period = some ("AM".data) ∧ hours0 = some (some 12) then
      some (some 0)
    else hours0
  (hours, minutes, seconds)

/-- parseDateTime(dateStr, timeStr, formatType): build the naive ISO string.
A none result models the TypeError thrown when an undefined day, month or
minutes component is hit by padStart / toString. -/
def parseDateTime (dateStr timeStr : List Char) (formatType : Nat) : Option (List Char) :=
  let parts := splitOn (fun c => c == '/') dateStr
  let fullYear := '2' :: '0' :: ((parts.get? 2).getD ("undefined".data))
  let dm := resolveDayMonth parts formatType
  let tp := parseTimeHMS timeStr
  match dm.1, dm.2, tp.2.1 with
  | some day, some month, some minutes =>
    some (fullYear ++ '-' :: padStart2 month ++ '-' :: padStart2 day ++ 'T' ::
      padStart2 (jstr tp.1) ++ ':' :: padStart2 (jnumStr minutes) ++ ':' ::
      padStart2 ((toString tp.2.2).data))
  | _, _, _ => none

/-- Captures of a user message-start pattern (groups 1-4). -/
structure StartCapture where
  dateTok : List Char
  timeTok : List Char
  sender : List Char
  body : List Char
deriving DecidableEq, Repr

/-- Captures of the dialect-B system-message pattern (groups 1-3). -/
structure SysCapture where
  dateTok : List Char
  timeTok : List Char
  body : List Char
deriving DecidableEq, Repr

/-- The date fragment of all three start patterns.  A one-or-two digit run
followed by a slash, again, then exactly two digits; returns the captured
text and the rest.  (The anchored regex admits no other parse: a digit run
of length zero or three or more can never be completed by the slash or
comma that must follow.) -/
def matchDate (cs : List Char) : Option (List Char × List Char) :=
  let d1 := cs.takeWhile isDigitCh
  let r1 := cs.dropWhile isDigitCh
  if d1.length = 0 || decide (2 < d1.length) then none else
  match r1 with
  | '/' :: r2 =>
    let d2 := r2.takeWhile isDigitCh
    let r3 := r2.dropWhile isDigitCh
    if d2.length = 0 || decide (2 < d2.length) then none else
    match r3 with
    | '/' :: r4 =>
      let y := r4.takeWhile isDigitCh
      let r5 := r4.dropWhile isDigitCh
      if y.length = 2 then some (d1 ++ '/' :: d2 ++ '/' :: y, r5) else none
    | _ => none
  | _ => none

/-- The dialect-A time fragment: hour, colon, two-digit minutes, colon,
two-digit seconds, an ordinary space, the AM/PM marker. -/
def matchTime1 (cs : List Char) : Option (List Char × List Char) :=
  let h := cs.takeWhile isDigitCh
  let r1 := cs.dropWhile isDigitCh
  if h.length = 0 || decide (2 < h.length) then none else
  match r1 with
  | ':' :: r2 =>
    let mi := r2.takeWhile isDigitCh
    let r3 := r2.dropWhile isDigitCh
    if !(mi.length = 2) then none else
    match r3 with
    | ':' :: r4 =>
      let se := r4.takeWhile isDigitCh
      let r5 := r4.dropWhile isDigitCh
      if !(se.length = 2) then none else
      match r5 with
      | ' ' :: a :: 'M' :: r6 =>
        if a == 'A' || a == 'P' then
          some (h ++ ':' :: mi ++ ':' :: se ++ [' ', a, 'M'], r6)
        else none
      | _ => none
    | _ => none
  | _ => none

/-- The dialect-B time fragment: hour, colon, two-digit minutes, one
character of the class [\s ], the AM/PM marker (no seconds). -/
def matchTime2 (cs : List Char) : Option (List Char × List Char) :=
  let h := cs.takeWhile isDigitCh
  let r1 := cs.dropWhile isDigitCh
  if h.length = 0 || decide (2 < h.length) then none else
  match r1 with
  | ':' :: r2 =>
    let mi := r2.takeWhile isDigitCh
    let r3 := r2.dropWhile isDigitCh
    if !(mi.length = 2) then none else
    match r3 with
    | sep :: a :: 'M' :: r4 =>
      if timeSepCh sep && (a == 'A' || a == 'P') then
        some (h ++ ':' :: mi ++ [sep, a, 'M'], r4)
      else none
    | _ => none
  | _ => none

/-- The sender fragment ([^:]+):  of both user patterns.  The class
cannot cross a colon, so the pattern colon is pinned to the first colon of
the input, which must be followed by a space; the sender is the (nonempty)
run before it. -/
def matchSender (cs : List Char) : Option (List Char × List Char) :=
  let snd := cs.takeWhile (fun c => !(c == ':'))
  let r := cs.dropWhile (fun c => !(c == ':'))
  if snd.isEmpty then none else
  match r with
  | ':' :: ' ' :: body => some (snd, body)
  | _ => none

/-- MESSAGE_START_PATTERN_1, anchored both ends: bracketed date, comma,
space, seconds-bearing time, closing bracket, space, sender, colon-space,
body of arbitrary (possibly empty) non-LineTerminator text. -/
def MESSAGE_START_PATTERN_1 (cs : List Char) : Option StartCapture :=
  match cs with
  | '[' :: r0 =>
    match matchDate r0 with
    | some (d, r1) =>
      match r1 with
      | ',' :: ' ' :: r2 =>
        match matchTime1 r2 with
        | some (t, r3) =>
          match r3 with
          | ']' :: ' ' :: r4 =>
            match matchSender r4 with
            | some (snd, body) =>
              if body.all isDotCh then some ⟨d, t, snd, body⟩ else none
            | none => none
          | _ => none
        | none => none
      | _ => none
    | none => none
  | _ => none

/-- MESSAGE_START_PATTERN_2, anchored both ends: bare date, comma, space,
short time, space-dash-space, sender, colon-space, body. -/
def MESSAGE_START_PATTERN_2 (cs : List Char) : Option StartCapture :=
  match matchDate cs with
  | some (d, r1) =>
    match r1 with
    | ',' :: ' ' :: r2 =>
      match matchTime2 r2 with
      | some (t, r3) =>
        match r3 with
        | ' ' :: '-' :: ' ' :: r4 =>
          match matchSender r4 with
          | some (snd, body) =>
            if body.all isDotCh then some ⟨d, t, snd, body⟩ else none
          | none => none
        | _ => none
      | none => none
    | _ => none
  | none => none

/-- MESSAGE_START_PATTERN_2_SYSTEM: like the previous pattern but the
remainder after the dash is captured whole (nonempty, no sender split). -/
def MESSAGE_START_PATTERN_2_SYSTEM (cs : List Char) : Option SysCapture :=
  match matchDate cs with
  | some (d, r1) =>
    match r1 with
    | ',' :: ' ' :: r2 =>
      match matchTime2 r2 with
      | some (t, r3) =>
        match r3 with
        | ' ' :: '-' :: ' ' :: r4 =>
          if !r4.isEmpty && r4.all isDotCh then some ⟨d, t, r4⟩ else none
        | _ => none
      | none => none
    | _ => none
  | none => none

/-- ASCII lowering, the effect of toLowerCase / the i flag on the
characters that can occur in the extension alternation. -/
def lowerCh (c : Char) : Char := c.toLower

/-- Case-insensitive character comparison (regex i flag canonicalisation,
ASCII range). -/
def ciEq (a b : Char) : Bool := lowerCh a == lowerCh b

/-- Match a literal pattern case-insensitively at the head of the input,
returning the matched input text and the rest. -/
def ciStarts : List Char → List Char → Option (List Char × List Char)
  | [], s => some ([], s)
  | _ :: _, [] => none
  | p :: ps, c :: cs =>
    if ciEq p c then (ciStarts ps cs).map (fun m => (c :: m.1, m.2)) else none

/-- Case-sensitive substring test (String.prototype.includes). -/
def containsL : List Char → List Char → Bool
  | nd, [] => nd.isEmpty
  | nd, c :: r => nd.isPrefixOf (c :: r) || containsL nd r

/-- Case-insensitive substring test (an i-flagged alternation of plain
phrases). -/
def containsCI : List Char → List Char → Bool
  | nd, [] => nd.isEmpty
  | nd, c :: r => (ciStarts nd (c :: r)).isSome || containsCI nd r

/-- The lazy group of the attached-media pattern: the shortest nonempty run
of non-LineTerminator characters that is followed by a closing angle
bracket; laziness tries to close before extending. -/
def lazyUntilGt : List Char → List Char → Option (List Char)
  | acc, c :: r =>
    if c == '>' && !acc.isEmpty then some acc
    else if isDotCh c then lazyUntilGt (acc ++ [c]) r
    else none
  | _, [] => none

/-- MEDIA_ATTACHED_PATTERN tried at one start position. -/
def attachedHere (cs : List Char) : Option (List Char) :=
  if ("<attached: ".data).isPrefixOf cs then
    lazyUntilGt [] (cs.drop ("<attached: ".data).length)
  else none

/-- MEDIA_ATTACHED_PATTERN, unanchored: the regex engine tries each start
position left to right and returns the first group capture. -/
def MEDIA_ATTACHED_PATTERN : List Char → Option (List Char)
  | [] => none
  | c :: r =>
    match attachedHere (c :: r) with
    | some f => some f
    | none => MEDIA_ATTACHED_PATTERN r

/-- The extension alternation of MEDIA_ATTACHED_PATTERN_2, in source
order. -/
def extAlternation : List (List Char) :=
  ["jpg", "jpeg", "png", "gif", "webp", "mp4", "avi", "mov", "mkv",
   "opus", "mp3", "ogg", "aac", "m4a", "pdf", "doc", "docx", "xls",
   "xlsx"].map String.data

/-- Try the extension alternatives in order at a fixed dot position; an
alternative succeeds only if the literal file-attached suffix (matched
case-insensitively under the i flag) follows.  Returns (group 1, group 2):
the whole filename and the extension as written. -/
def tryExts : List (List Char) → List Char → List Char → Option (List Char × List Char)
  | [], _, _ => none
  | e :: es, acc, r =>
    match ciStarts e r with
    | some (m, r2) =>
      match ciStarts (" (file attached)".data) r2 with
      | some _ => some (acc ++ '.' :: m, m)
      | none => tryExts es acc r
    | none => tryExts es acc r

/-- The lazy scan of MEDIA_ATTACHED_PATTERN_2: at each literal dot reached
with a nonempty prefix, try to finish the pattern before letting the lazy
group swallow the dot and continue. -/
def matchAttached2Aux : List Char → List Char → Option (List Char × List Char)
  | acc, c :: r =>
    match (if c == '.' && !acc.isEmpty then tryExts extAlternation acc r else none) with
    | some res => some res
    | none => if isDotCh c then matchAttached2Aux (acc ++ [c]) r else none
  | _, [] => none

/-- MEDIA_ATTACHED_PATTERN_2, anchored at the start of the body. -/
def MEDIA_ATTACHED_PATTERN_2 (cs : List Char) : Option (List Char × List Char) :=
  matchAttached2Aux [] cs

/-- MEDIA_OMITTED_PATTERN.test: i-flagged alternation of omission
phrases. -/
def MEDIA_OMITTED_PATTERN (content : List Char) : Bool :=
  containsCI ("image omitted".data) content
  || containsCI ("video omitted".data) content
  || containsCI ("audio omitted".data) content
  || containsCI ("sticker omitted".data) content
  || containsCI ("document omitted".data) content

/-- SYSTEM_MESSAGE_INDICATORS. -/
def SYSTEM_MESSAGE_INDICATORS : List (List Char) :=
  ["created this group", "added you", "left", "removed",
   "changed the subject", "changed this group's icon",
   "Messages and calls are end-to-end encrypted"].map String.data

/-- isSystemMessage(content): some indicator occurs as a (case-sensitive)
substring. -/
def isSystemMessage (content : List Char) : Bool :=
  SYSTEM_MESSAGE_INDICATORS.any (fun ind => containsL ind content)

/-- filename.split of the dot character, then .pop().toLowerCase(). -/
def extOf (filename : List Char) : List Char :=
  ((splitOn (fun c => c == '.') filename).getLastD []).map lowerCh

/-- The extension-to-media-kind if chain shared by both attachment
branches (default document). -/
def mediaTypeOf (ext : List Char) : List Char :=
  if ext ∈ (["jpg", "jpeg", "png", "gif", "webp"].map String.data) then "image".data
  else if ext ∈ (["mp4", "avi", "mov", "mkv"].map String.data) then "video".data
  else if ext ∈ (["opus", "mp3", "ogg", "aac", "m4a"].map String.data) then "audio".data
  else if ext ∈ (["pdf", "doc", "docx", "xls", "xlsx"].map String.data) then "document".data
  else "document".data

/-- Media payload of a media message. -/
structure MediaInfo where
  filename : List Char
  mediaType : List Char
deriving DecidableEq, Repr

/-- analyzeMessage(content): ordered precedence over the body text,
returning (type, media). -/
def analyzeMessage (content : List Char) : List Char × Option MediaInfo :=
  match MEDIA_ATTACHED_PATTERN content with
  | some filename => ("media".data, some ⟨filename, mediaTypeOf (extOf filename)⟩)
  | none =>
    match MEDIA_ATTACHED_PATTERN_2 content with
    | some (filename, extRaw) =>
      ("media".data, some ⟨filename, mediaTypeOf (extRaw.map lowerCh)⟩)
    | none =>
      if MEDIA_OMITTED_PATTERN content then ("media_omitted".data, none)
      else if isSystemMessage content then ("system".data, none)
      else ("text".data, none)

/-- A message record as pushed by parseChatFile. -/
structure Message where
  id : List Char
  timestamp : List Char
  sender : List Char
  content : List Char
  type : List Char
  media : Option MediaInfo
deriving DecidableEq, Repr

/-- The id string msg_N produced by the ++messageId template. -/
def mkId (n : Nat) : List Char := "msg_".data ++ (toString n).data

/-- Outcome of trying the three start patterns in their fixed order
(lines 192-209). -/
inductive StartKind where
  | user1 (m : StartCapture)
  | user2 (m : StartCapture)
  | sys2 (m : SysCapture)
deriving DecidableEq, Repr

/-- Date token captured by a start match. -/
def startDate : StartKind → List Char
  | .user1 m => m.dateTok
  | .user2 m => m.dateTok
  | .sys2 m => m.dateTok

/-- Time token captured by a start match. -/
def startTime : StartKind → List Char
  | .user1 m => m.timeTok
  | .user2 m => m.timeTok
  | .sys2 m => m.timeTok

/-- formatType selected for a start match (1 for dialect A, 2 for both
dialect-B forms). -/
def startFmt : StartKind → Nat
  | .user1 _ => 1
  | .user2 _ => 2
  | .sys2 _ => 2

/-- Raw body captured by a start match (group 4, or group 3 for the
system form), before trimming. -/
def startBodyRaw : StartKind → List Char
  | .user1 m => m.body
  | .user2 m => m.body
  | .sys2 m => m.body

/-- Try the three message-start patterns in order; the first match
wins. -/
def classifyLine (line : List Char) : Option StartKind :=
  match MESSAGE_START_PATTERN_1 line with
  | some m => some (.user1 m)
  | none =>
    match MESSAGE_START_PATTERN_2 line with
    | some m => some (.user2 m)
    | none =>
      match MESSAGE_START_PATTERN_2_SYSTEM line with
      | some m => some (.sys2 m)
      | none => none

/-- Build the record for a fresh start match (lines 218-244); none models
an exception escaping from parseDateTime. -/
def buildMessage (st : StartKind) (newId : Nat) : Option Message :=
  match st with
  | .sys2 m =>
    (parseDateTime m.dateTok m.timeTok 2).map (fun ts =>
      ⟨mkId newId, ts, "System".data, jsTrim m.body, "system".data, none⟩)
  | .user1 m =>
    (parseDateTime m.dateTok m.timeTok 1).map (fun ts =>
      let analysis := analyzeMessage m.body
      ⟨mkId newId, ts, jsTrim m.sender, jsTrim m.body, analysis.1, analysis.2⟩)
  | .user2 m =>
    (parseDateTime m.dateTok m.timeTok 2).map (fun ts =>
      let analysis := analyzeMessage m.body
      ⟨mkId newId, ts, jsTrim m.sender, jsTrim m.body, analysis.1, analysis.2⟩)

/-- Per-line preprocessing (line 187): strip invisible characters, then
trim. -/
def pre (l : List Char) : List Char := jsTrim (stripInvisible l)

/-- content.replace of the CRLF pair with a newline, globally
(leftmost-first, non-overlapping). -/
def replaceCRLF : List Char → List Char
  | '\r' :: '\n' :: r => '\n' :: replaceCRLF r
  | c :: r => c :: replaceCRLF r
  | [] => []

/-- The assembler loop of parseChatFile over the split lines, carrying the
open message and the id counter; the trailing flush of the open message is
folded into the base case. -/
def processLines : List (List Char) → Option Message → Nat → Option (List Message)
  | [], none, _ => some []
  | [], some m, _ => some [m]
  | l :: rest, cur, mid =>
    let line := pre l
    if line.isEmpty then processLines rest cur mid
    else
      match classifyLine line with
      | some st =>
        match buildMessage st (mid + 1) with
        | none => none
        | some msg => (processLines rest (some msg) (mid + 1)).map (fun ms => cur.toList ++ ms)
      | none =>
        match cur with
        | some m => processLines rest (some { m with content := m.content ++ '\n' :: line }) mid
        | none => processLines rest none mid

/-- parseChatFile on the file content (the fs read is outside the model):
normalise line endings, split on newlines, run the assembler. -/
def parseChatFile (content : List Char) : Option (List Message) :=
  processLines (splitOn (fun c => c == '\n') (replaceCRLF content)) none 0

/-- Instrumented assembler: identical control flow, but each record is
paired with the zero-based index of the transcript line that started it. -/
def processLinesIdx : List (List Char) → Option (Nat × Message) → Nat → Nat →
    Option (List (Nat × Message))
  | [], none, _, _ => some []
  | [], some pm, _, _ => some [pm]
  | l :: rest, cur, k, mid =>
    let line := pre l
    if line.isEmpty then processLinesIdx rest cur (k + 1) mid
    else
      match classifyLine line with
      | some st =>
        match buildMessage st (mid + 1) with
        | none => none
        | some msg =>
          (processLinesIdx rest (some (k, msg)) (k + 1) (mid + 1)).map
            (fun ms => cur.toList ++ ms)
      | none =>
        match cur with
        | some pm =>
          processLinesIdx rest
            (some (pm.1, { pm.2 with content := pm.2.content ++ '\n' :: line })) (k + 1) mid
        | none => processLinesIdx rest none (k + 1) mid

/-- parseChatFile with start-line indices attached. -/
def parseChatFileIdx (content : List Char) : Option (List (Nat × Message)) :=
  processLinesIdx (splitOn (fun c => c == '\n') (replaceCRLF content)) none 0 0

/-- A valid calendar timestamp as recovered by the Date constructor from a
naive ISO string (the run environment is modelled at UTC, where
toISOString is the identity on the represented fields). -/
structure JsDate where
  y : Nat
  mo : Nat
  d : Nat
  h : Nat
  mi : Nat
  s : Nat
deriving DecidableEq, Repr

/-- Days in a month, with the Gregorian leap rule. -/
def monthLen (y mo : Nat) : Nat :=
  if mo = 2 then
    if y % 4 = 0 ∧ (y % 100 ≠ 0 ∨ y % 400 = 0) then 29 else 28
  else if mo ∈ ([4, 6, 9, 11] : List Nat) then 30 else 31

/-- new Date on the parser's timestamp strings: the exact
year-month-day-T-time shape with in-range fields parses; anything else is
an Invalid Date (none).  (The 24:00:00 special form never arises here and
is not modelled.) -/
def jsDateParse (cs : List Char) : Option JsDate :=
  match cs with
  | [y1, y2, y3, y4, '-', m1, m2, '-', d1, d2, 'T', h1, h2, ':', i1, i2, ':', s1, s2] =>
    if [y1, y2, y3, y4, m1, m2, d1, d2, h1, h2, i1, i2, s1, s2].all isDigitCh then
      let y := digitsVal [y1, y2, y3, y4]
      let mo := digitsVal [m1, m2]
      let d := digitsVal [d1, d2]
      let h := digitsVal [h1, h2]
      let mi := digitsVal [i1, i2]
      let s := digitsVal [s1, s2]
      if 1 ≤ mo ∧ mo ≤ 12 ∧ 1 ≤ d ∧ d ≤ monthLen y mo ∧ h ≤ 23 ∧ mi ≤ 59 ∧ s ≤ 59 then
        some ⟨y, mo, d, h, mi, s⟩
      else none
    else none
  | _ => none

/-- Mixed-radix key, order-isomorphic to the epoch value on valid
timestamps; the extractor only compares and truncates, so only the order
matters. -/
def dateKey (dt : JsDate) : Nat :=
  ((((dt.y * 13 + dt.mo) * 32 + dt.d) * 24 + dt.h) * 60 + dt.mi) * 60 + dt.s

/-- msgDate < earliestDate on two possibly-invalid dates (NaN comparisons
are false). -/
def jsDateLt (a b : Option JsDate) : Bool :=
  match a, b with
  | some x, some y => decide (dateKey x < dateKey y)
  | _, _ => false

/-- msgDate > latestDate on two possibly-invalid dates. -/
def jsDateGt (a b : Option JsDate) : Bool :=
  match a, b with
  | some x, some y => decide (dateKey y < dateKey x)
  | _, _ => false

/-- Pad a rendered number to four characters (toISOString year). -/
def padStart4 (s : List Char) : List Char :=
  if 4 ≤ s.length then s else List.replicate (4 - s.length) '0' ++ s

/-- earliestDate.toISOString().split at the T, first component: the
calendar date, rendered at UTC. -/
def renderDate (dt : JsDate) : List Char :=
  padStart4 ((toString dt.y).data) ++ '-' :: padStart2 ((toString dt.mo).data)
    ++ '-' :: padStart2 ((toString dt.d).data)

/-- The metadata record (the exportDate field, which reads the current
clock, is outside the model). -/
structure Metadata where
  chatName : List Char
  messageCount : Nat
  participants : List (List Char)
  rangeStart : Option (List Char)
  rangeEnd : Option (List Char)
deriving DecidableEq, Repr

/-- One step of the extractMetadata forEach: participants is the Set (an
insertion-ordered, deduplicating collection); the two bounds are null
(outer none) until first assigned and may hold an Invalid Date (inner
none). -/
def metaStep (acc : List (List Char) × Option (Option JsDate) × Option (Option JsDate))
    (msg : Message) : List (List Char) × Option (Option JsDate) × Option (Option JsDate) :=
  let ps :=
    if msg.type = "system".data then acc.1
    else if msg.sender ∈ acc.1 then acc.1 else acc.1 ++ [msg.sender]
  let md := jsDateParse msg.timestamp
  let e :=
    match acc.2.1 with
    | none => some md
    | some prev => if jsDateLt md prev then some md else some prev
  let l :=
    match acc.2.2 with
    | none => some md
    | some prev => if jsDateGt md prev then some md else some prev
  (ps, e, l)

/-- Render a bound for the dateRange object: null stays null, a valid date
is truncated to its calendar date, and calling toISOString on an Invalid
Date throws (outer none). -/
def renderBound : Option (Option JsDate) → Option (Option (List Char))
  | none => some none
  | some none => none
  | some (some dt) => some (some (renderDate dt))

/-- extractMetadata(messages, chatName); none models the RangeError thrown
by toISOString on an Invalid Date bound. -/
def extractMetadata (messages : List Message) (chatName : List Char) : Option Metadata :=
  let fin := messages.foldl metaStep ([], none, none)
  match renderBound fin.2.1, renderBound fin.2.2 with
  | some s, some e => some ⟨chatName, messages.length, fin.1, s, e⟩
  | _, _ => none

/-! ### Support lemmas: takeWhile, dropWhile, splitOn on structured input -/

theorem takeWhile_app (p : Char → Bool) :
    ∀ (d r : List Char), (∀ c ∈ d, p c = true) →
      (∀ c, r.head? = some c → p c = false) → (d ++ r).takeWhile p = d
  | [], r, _, hr => by
    cases r with
    | nil => rfl
    | cons c t =>
      have : p c = false := hr c rfl
      simp [List.takeWhile_cons, this]
  | a :: d, r, hd, hr => by
    have ha : p a = true := hd a (List.mem_cons_self a d)
    simp only [List.cons_append, List.takeWhile_cons_of_pos ha]
    rw [takeWhile_app p d r (fun c hc => hd c (List.mem_cons_of_mem a hc)) hr]

theorem dropWhile_app (p : Char → Bool) :
    ∀ (d r : List Char), (∀ c ∈ d, p c = true) →
      (∀ c, r.head? = some c → p c = false) → (d ++ r).dropWhile p = r
  | [], r, _, hr => by
    cases r with
    | nil => rfl
    | cons c t =>
      have : p c = false := hr c rfl
      simp [List.dropWhile_cons, this]
  | a :: d, r, hd, hr => by
    have ha : p a = true := hd a (List.mem_cons_self a d)
    simp only [List.cons_append, List.dropWhile_cons_of_pos ha]
    exact dropWhile_app p d r (fun c hc => hd c (List.mem_cons_of_mem a hc)) hr

theorem mem_takeWhile_pred (p : Char → Bool) :
    ∀ (l : List Char), ∀ c ∈ l.takeWhile p, p c = true
  | [], c, hc => by simp at hc
  | a :: l, c, hc => by
    by_cases ha : p a = true
    · rw [List.takeWhile_cons_of_pos ha] at hc
      rcases List.mem_cons.mp hc with h | h
      · exact h ▸ ha
      · exact mem_takeWhile_pred p l c h
    · rw [List.takeWhile_cons_of_neg (by simpa using ha)] at hc
      simp at hc

theorem head?_dropWhile_pred (p : Char → Bool) (l : List Char) :
    ∀ c, (l.dropWhile p).head? = some c → p c = false := by
  intro c hc
  have := List.head?_dropWhile_not p l
  rw [hc] at this
  exact this

theorem splitOn_sepFree (p : Char → Bool) :
    ∀ (a : List Char), (∀ c ∈ a, p c = false) → splitOn p a = [a]
  | [], _ => rfl
  | c :: r, h => by
    have hc : p c = false := h c (List.mem_cons_self c r)
    rw [splitOn, if_neg (by simp [hc]),
      splitOn_sepFree p r (fun x hx => h x (List.mem_cons_of_mem c hx))]

theorem splitOn_app (p : Char → Bool) :
    ∀ (a : List Char) (s : Char) (r : List Char), (∀ c ∈ a, p c = false) → p s = true →
      splitOn p (a ++ s :: r) = a :: splitOn p r
  | [], s, r, _, hs => by
    rw [List.nil_append, splitOn, if_pos hs]
  | c :: a, s, r, h, hs => by
    have hc : p c = false := h c (List.mem_cons_self c a)
    rw [List.cons_append, splitOn, if_neg (by simp [hc]),
      splitOn_app p a s r (fun x hx => h x (List.mem_cons_of_mem c hx)) hs]

/-! ### Character class facts -/

theorem isDigitCh_bounds {c : Char} (h : isDigitCh c = true) :
    48 ≤ c.toNat ∧ c.toNat ≤ 57 := by
  simp only [isDigitCh, Bool.and_eq_true, decide_eq_true_eq] at h
  exact h

theorem digit_not_ws {c : Char} (h : isDigitCh c = true) : isWsCh c = false := by
  obtain ⟨h1, h2⟩ := isDigitCh_bounds h
  simp only [isWsCh, List.mem_cons, List.not_mem_nil, or_false,
    Bool.or_eq_false_iff, Bool.and_eq_false_iff, decide_eq_false_iff_not]
  omega

theorem digit_ne_char {c d : Char} (h : isDigitCh c = true)
    (hd : d.toNat < 48 ∨ 57 < d.toNat) : c ≠ d := by
  obtain ⟨h1, h2⟩ := isDigitCh_bounds h
  intro he
  subst he
  omega

theorem digit_not_colon {c : Char} (h : isDigitCh c = true) : (c == ':') = false := by
  have := digit_ne_char h (d := ':') (by right; decide)
  simpa using this

theorem digit_not_slash {c : Char} (h : isDigitCh c = true) : (c == '/') = false := by
  have := digit_ne_char h (d := '/') (by left; decide)
  simpa using this

/-! ### Shape of the tokens captured by a successful pattern match -/

theorem matchDate_shape {cs : List Char} {d r : List Char} (h : matchDate cs = some (d, r)) :
    ∃ d1 d2 y : List Char, d = d1 ++ '/' :: d2 ++ '/' :: y ∧ d1 ≠ [] ∧ d2 ≠ [] ∧
      y.length = 2 ∧ (∀ c ∈ d1, isDigitCh c = true) ∧ (∀ c ∈ d2, isDigitCh c = true) ∧
      (∀ c ∈ y, isDigitCh c = true) := by
  simp only [matchDate] at h
  split at h
  · exact absurd h (by simp)
  · rename_i hlen1
    split at h
    · rename_i r2 heq1
      split at h
      · exact absurd h (by simp)
      · rename_i hlen2
        split at h
        · rename_i r4 heq2
          split at h
          · rename_i hylen
            injection h with h'
            injection h' with hd hr
            refine ⟨cs.takeWhile isDigitCh, r2.takeWhile isDigitCh, r4.takeWhile isDigitCh,
              hd.symm, ?_, ?_, hylen, mem_takeWhile_pred _ _, mem_takeWhile_pred _ _,
              mem_takeWhile_pred _ _⟩
            · intro hnil
              simp only [Bool.or_eq_true, decide_eq_true_eq] at hlen1
              exact hlen1 (Or.inl (by simp [hnil]))
            · intro hnil
              simp only [Bool.or_eq_true, decide_eq_true_eq] at hlen2
              exact hlen2 (Or.inl (by simp [hnil]))
          · exact absurd h (by simp)
        · exact absurd h (by simp)
    · exact absurd h (by simp)

theorem matchTime1_shape {cs : List Char} {t r : List Char} (h : matchTime1 cs = some (t, r)) :
    ∃ (hh mm ss : List Char) (a : Char), t = hh ++ ':' :: mm ++ ':' :: ss ++ [' ', a, 'M'] ∧
      hh ≠ [] ∧ mm ≠ [] ∧ ss ≠ [] ∧ (∀ c ∈ hh, isDigitCh c = true) ∧
      (∀ c ∈ mm, isDigitCh c = true) ∧ (∀ c ∈ ss, isDigitCh c = true) ∧
      (a = 'A' ∨ a = 'P') := by
  simp only [matchTime1] at h
  split at h
  · exact absurd h (by simp)
  · rename_i hlen1
    split at h
    · rename_i r2 heq1
      split at h
      · exact absurd h (by simp)
      · rename_i hlen2
        split at h
        · rename_i r4 heq2
          split at h
          · exact absurd h (by simp)
          · rename_i hlen3
            split at h
            · rename_i a r6 heq3
              split at h
              · rename_i hamark
                injection h with h'
                injection h' with ht hr
                refine ⟨cs.takeWhile isDigitCh, r2.takeWhile isDigitCh, r4.takeWhile isDigitCh,
                  a, ht.symm, ?_, ?_, ?_, mem_takeWhile_pred _ _, mem_takeWhile_pred _ _,
                  mem_takeWhile_pred _ _, ?_⟩
                · intro hnil
                  simp only [Bool.or_eq_true, decide_eq_true_eq] at hlen1
                  exact hlen1 (Or.inl (by simp [hnil]))
                · intro hnil
                  simp [hnil] at hlen2
                · intro hnil
                  simp [hnil] at hlen3
                · simpa using hamark
              · exact absurd h (by simp)
            · exact absurd h (by simp)
        · exact absurd h (by simp)
    · exact absurd h (by simp)

theorem matchTime2_shape {cs : List Char} {t r : List Char} (h : matchTime2 cs = some (t, r)) :
    ∃ (hh mm : List Char) (sep a : Char), t = hh ++ ':' :: mm ++ [sep, a, 'M'] ∧
      hh ≠ [] ∧ mm ≠ [] ∧ (∀ c ∈ hh, isDigitCh c = true) ∧
      (∀ c ∈ mm, isDigitCh c = true) ∧ timeSepCh sep = true ∧ (a = 'A' ∨ a = 'P') := by
  simp only [matchTime2] at h
  split at h
  · exact absurd h (by simp)
  · rename_i hlen1
    split at h
    · rename_i r2 heq1
      split at h
      · exact absurd h (by simp)
      · rename_i hlen2
        split at h
        · rename_i sep a r4 heq2
          split at h
          · rename_i hcls
            injection h with h'
            injection h' with ht hr
            simp only [Bool.and_eq_true, Bool.or_eq_true, beq_iff_eq] at hcls
            refine ⟨cs.takeWhile isDigitCh, r2.takeWhile isDigitCh, sep, a, ht.symm, ?_, ?_,
              mem_takeWhile_pred _ _, mem_takeWhile_pred _ _, hcls.1, hcls.2⟩
            · intro hnil
              simp only [Bool.or_eq_true, decide_eq_true_eq] at hlen1
              exact hlen1 (Or.inl (by simp [hnil]))
            · intro hnil
              simp [hnil] at hlen2
          · exact absurd h (by simp)
        · exact absurd h (by simp)
    · exact absurd h (by simp)

/-! ### Evaluation of the numeric coercions on digit strings -/

theorem dropWhile_eq_self_of_head (p : Char → Bool) (l : List Char)
    (h : ∀ c, l.head? = some c → p c = false) : l.dropWhile p = l := by
  cases l with
  | nil => rfl
  | cons c r => exact List.dropWhile_cons_of_neg (by simp [h c rfl])

theorem jsTrim_eq_self (l : List Char) (h : ∀ c ∈ l, isWsCh c = false) : jsTrim l = l := by
  have h1 : l.dropWhile isWsCh = l :=
    dropWhile_eq_self_of_head _ _ (fun c hc =>
      h c (List.mem_of_mem_head? (by simp [hc])))
  have h2 : l.reverse.dropWhile isWsCh = l.reverse :=
    dropWhile_eq_self_of_head _ _ (fun c hc =>
      h c (List.mem_reverse.mp (List.mem_of_mem_head? (by simp [hc]))))
  unfold jsTrim
  rw [h1, h2, List.reverse_reverse]

theorem jsNumber_digits (d : List Char) (hne : d ≠ []) (hd : ∀ c ∈ d, isDigitCh c = true) :
    jsNumber d = some (digitsVal d) := by
  have htrim : jsTrim d = d := jsTrim_eq_self d (fun c hc => digit_not_ws (hd c hc))
  simp only [jsNumber, htrim]
  rw [if_neg (by simpa using hne), if_pos (List.all_eq_true.mpr hd)]

theorem takeWhile_eq_self_of_all (p : Char → Bool) (l : List Char)
    (h : ∀ c ∈ l, p c = true) : l.takeWhile p = l := by
  have := takeWhile_app p l [] h (fun c hc => by simp at hc)
  simpa using this

theorem jsParseInt_digits (d : List Char) (hne : d ≠ []) (hd : ∀ c ∈ d, isDigitCh c = true) :
    jsParseInt d = some (digitsVal d) := by
  have h1 : d.dropWhile isWsCh = d :=
    dropWhile_eq_self_of_head _ _ (fun c hc =>
      digit_not_ws (hd c (List.mem_of_mem_head? hc)))
  simp only [jsParseInt, h1, takeWhile_eq_self_of_all isDigitCh d hd]
  rw [if_neg (by simpa using hne)]

/-! ### Evaluation of parseTimeHMS on well-shaped time tokens -/

theorem clock1_not_ws (hh mm ss : List Char)
    (dh : ∀ c ∈ hh, isDigitCh c = true) (dm : ∀ c ∈ mm, isDigitCh c = true)
    (ds : ∀ c ∈ ss, isDigitCh c = true) :
    ∀ c ∈ hh ++ ':' :: mm ++ ':' :: ss, timeSepCh c = false := by
  intro c hc
  rcases List.mem_append.mp hc with h1 | h1
  · rcases List.mem_append.mp h1 with h2 | h2
    · exact digit_not_ws (dh c h2)
    · rcases List.mem_cons.mp h2 with rfl | h3
      · decide
      · exact digit_not_ws (dm c h3)
  · rcases List.mem_cons.mp h1 with rfl | h2
    · decide
    · exact digit_not_ws (ds c h2)

theorem clock2_not_ws (hh mm : List Char)
    (dh : ∀ c ∈ hh, isDigitCh c = true) (dm : ∀ c ∈ mm, isDigitCh c = true) :
    ∀ c ∈ hh ++ ':' :: mm, timeSepCh c = false := by
  intro c hc
  rcases List.mem_append.mp hc with h1 | h1
  · exact digit_not_ws (dh c h1)
  · rcases List.mem_cons.mp h1 with rfl | h2
    · decide
    · exact digit_not_ws (dm c h2)

theorem splitColon3 (hh mm ss : List Char)
    (dh : ∀ c ∈ hh, isDigitCh c = true) (dm : ∀ c ∈ mm, isDigitCh c = true)
    (ds : ∀ c ∈ ss, isDigitCh c = true) :
    splitOn (fun c => c == ':') (hh ++ ':' :: mm ++ ':' :: ss) = [hh, mm, ss] := by
  have hg : hh ++ ':' :: mm ++ ':' :: ss = hh ++ ':' :: (mm ++ ':' :: ss) := by
    simp [List.append_assoc]
  rw [hg, splitOn_app _ hh ':' _ (fun c hc => digit_not_colon (dh c hc)) (by decide),
    splitOn_app _ mm ':' _ (fun c hc => digit_not_colon (dm c hc)) (by decide),
    splitOn_sepFree _ ss (fun c hc => digit_not_colon (ds c hc))]

theorem splitColon2 (hh mm : List Char)
    (dh : ∀ c ∈ hh, isDigitCh c = true) (dm : ∀ c ∈ mm, isDigitCh c = true) :
    splitOn (fun c => c == ':') (hh ++ ':' :: mm) = [hh, mm] := by
  rw [splitOn_app _ hh ':' _ (fun c hc => digit_not_colon (dh c hc)) (by decide),
    splitOn_sepFree _ mm (fun c hc => digit_not_colon (dm c hc))]

theorem splitWs_tok (clock : List Char) (sep a : Char)
    (hclock : ∀ c ∈ clock, timeSepCh c = false) (hsep : timeSepCh sep = true)
    (ha : a = 'A' ∨ a = 'P') :
    splitOn timeSepCh (clock ++ sep :: [a, 'M']) = [clock, [a, 'M']] := by
  rw [splitOn_app timeSepCh clock sep [a, 'M'] hclock hsep,
    splitOn_sepFree timeSepCh [a, 'M'] ?_]
  intro c hc
  rcases List.mem_cons.mp hc with rfl | h2
  · rcases ha with rfl | rfl <;> decide
  · rcases List.mem_cons.mp h2 with rfl | h3
    · decide
    · simp at h3

theorem parseTimeHMS_eval1 (hh mm ss : List Char) (sep a : Char)
    (hhne : hh ≠ []) (hmne : mm ≠ []) (hsne : ss ≠ [])
    (dh : ∀ c ∈ hh, isDigitCh c = true) (dm : ∀ c ∈ mm, isDigitCh c = true)
    (ds : ∀ c ∈ ss, isDigitCh c = true) (hsep : timeSepCh sep = true)
    (ha : a = 'A' ∨ a = 'P') :
    parseTimeHMS (hh ++ ':' :: mm ++ ':' :: ss ++ [sep, a, 'M']) =
      (some (some (if a = 'P' then (if digitsVal hh = 12 then 12 else digitsVal hh + 12)
                   else (if digitsVal hh = 12 then 0 else digitsVal hh))),
       some (some (digitsVal mm)), digitsVal ss) := by
  have hws : splitOn timeSepCh (hh ++ ':' :: mm ++ ':' :: ss ++ [sep, a, 'M']) =
      [hh ++ ':' :: mm ++ ':' :: ss, [a, 'M']] :=
    splitWs_tok _ _ _ (clock1_not_ws hh mm ss dh dm ds) hsep ha
  have hcolon := splitColon3 hh mm ss dh dm ds
  have hjh := jsNumber_digits hh hhne dh
  have hjm := jsNumber_digits mm hmne dm
  have hjs := jsNumber_digits ss hsne ds
  simp only [parseTimeHMS, hws, List.headD_cons, List.get?_cons_succ, List.get?_cons_zero,
    List.get?_nil, hcolon, List.map_cons, List.map_nil, hjh, hjm, hjs]
  rcases ha with rfl | rfl
  · by_cases hv : digitsVal hh = 12
    · rw [hv]; congr 1
    · congr 1
      rw [if_neg (fun hx => absurd hx.1 (by decide)),
        if_neg (fun hx => hv (by simpa using hx.2)),
        if_neg (by decide : ¬('A' = 'P')), if_neg hv]
  · by_cases hv : digitsVal hh = 12
    · rw [hv]; congr 1
    · congr 1
      rw [if_pos ⟨by decide, fun hx => hv (by simpa using hx)⟩,
        if_pos (rfl : 'P' = 'P'), if_neg hv]

theorem parseTimeHMS_eval2 (hh mm : List Char) (sep a : Char)
    (hhne : hh ≠ []) (hmne : mm ≠ [])
    (dh : ∀ c ∈ hh, isDigitCh c = true) (dm : ∀ c ∈ mm, isDigitCh c = true)
    (hsep : timeSepCh sep = true) (ha : a = 'A' ∨ a = 'P') :
    parseTimeHMS (hh ++ ':' :: mm ++ [sep, a, 'M']) =
      (some (some (if a = 'P' then (if digitsVal hh = 12 then 12 else digitsVal hh + 12)
                   else (if digitsVal hh = 12 then 0 else digitsVal hh))),
       some (some (digitsVal mm)), 0) := by
  have hws : splitOn timeSepCh (hh ++ ':' :: mm ++ [sep, a, 'M']) =
      [hh ++ ':' :: mm, [a, 'M']] :=
    splitWs_tok _ _ _ (clock2_not_ws hh mm dh dm) hsep ha
  have hcolon := splitColon2 hh mm dh dm
  have hjh := jsNumber_digits hh hhne dh
  have hjm := jsNumber_digits mm hmne dm
  simp only [parseTimeHMS, hws, List.headD_cons, List.get?_cons_succ, List.get?_cons_zero,
    List.get?_nil, hcolon, List.map_cons, List.map_nil, hjh, hjm]
  rcases ha with rfl | rfl
  · by_cases hv : digitsVal hh = 12
    · rw [hv]; congr 1
    · congr 1
      rw [if_neg (fun hx => absurd hx.1 (by decide)),
        if_neg (fun hx => hv (by simpa using hx.2)),
        if_neg (by decide : ¬('A' = 'P')), if_neg hv]
  · by_cases hv : digitsVal hh = 12
    · rw [hv]; congr 1
    · congr 1
      rw [if_pos ⟨by decide, fun hx => hv (by simpa using hx)⟩,
        if_pos (rfl : 'P' = 'P'), if_neg hv]

/-! ### parseDateTime succeeds on every classifier-captured token pair -/

theorem splitSlash3 (d1 d2 y : List Char)
    (hd1 : ∀ c ∈ d1, isDigitCh c = true) (hd2 : ∀ c ∈ d2, isDigitCh c = true)
    (hy : ∀ c ∈ y, isDigitCh c = true) :
    splitOn (fun c => c == '/') (d1 ++ '/' :: d2 ++ '/' :: y) = [d1, d2, y] := by
  have hg : d1 ++ '/' :: d2 ++ '/' :: y = d1 ++ '/' :: (d2 ++ '/' :: y) := by
    simp [List.append_assoc]
  rw [hg, splitOn_app _ d1 '/' _ (fun c hc => digit_not_slash (hd1 c hc)) (by decide),
    splitOn_app _ d2 '/' _ (fun c hc => digit_not_slash (hd2 c hc)) (by decide),
    splitOn_sepFree _ y (fun c hc => digit_not_slash (hy c hc))]

theorem resolveDayMonth_pair (a b : List Char) (t : List (List Char)) (ft : Nat) :
    (resolveDayMonth (a :: b :: t) ft).1.isSome = true ∧
    (resolveDayMonth (a :: b :: t) ft).2.isSome = true := by
  simp only [resolveDayMonth]
  split_ifs <;> simp

theorem parseDateTime_isSome_shape (d1 d2 y t : List Char) (ft : Nat)
    (hd1 : ∀ c ∈ d1, isDigitCh c = true) (hd2 : ∀ c ∈ d2, isDigitCh c = true)
    (hy : ∀ c ∈ y, isDigitCh c = true)
    (hmin : (parseTimeHMS t).2.1.isSome = true) :
    (parseDateTime (d1 ++ '/' :: d2 ++ '/' :: y) t ft).isSome = true := by
  have hs := splitSlash3 d1 d2 y hd1 hd2 hy
  obtain ⟨dmi1, dmi2⟩ := resolveDayMonth_pair d1 d2 [y] ft
  obtain ⟨da, hda⟩ := Option.isSome_iff_exists.mp dmi1
  obtain ⟨mo, hmo⟩ := Option.isSome_iff_exists.mp dmi2
  obtain ⟨mn, hmn⟩ := Option.isSome_iff_exists.mp hmin
  simp only [parseDateTime, hs, hda, hmo, hmn, Option.isSome_some]

theorem pattern1_inv {cs : List Char} {m : StartCapture}
    (h : MESSAGE_START_PATTERN_1 cs = some m) :
    (∃ u r, matchDate u = some (m.dateTok, r)) ∧
    (∃ u r, matchTime1 u = some (m.timeTok, r)) := by
  simp only [MESSAGE_START_PATTERN_1] at h
  split at h
  · rename_i r0
    split at h
    · rename_i d r1 hd
      split at h
      · rename_i r2
        split at h
        · rename_i t r3 ht
          split at h
          · rename_i r4
            split at h
            · rename_i snd body hs
              split at h
              · injection h with h'
                subst h'
                exact ⟨⟨_, _, hd⟩, ⟨_, _, ht⟩⟩
              · exact absurd h (by simp)
            · exact absurd h (by simp)
          · exact absurd h (by simp)
        · exact absurd h (by simp)
      · exact absurd h (by simp)
    · exact absurd h (by simp)
  · exact absurd h (by simp)

theorem pattern2_inv {cs : List Char} {m : StartCapture}
    (h : MESSAGE_START_PATTERN_2 cs = some m) :
    (∃ u r, matchDate u = some (m.dateTok, r)) ∧
    (∃ u r, matchTime2 u = some (m.timeTok, r)) := by
  simp only [MESSAGE_START_PATTERN_2] at h
  split at h
  · rename_i d r1 hd
    split at h
    · rename_i r2
      split at h
      · rename_i t r3 ht
        split at h
        · rename_i r4
          split at h
          · rename_i snd body hs
            split at h
            · injection h with h'
              subst h'
              exact ⟨⟨_, _, hd⟩, ⟨_, _, ht⟩⟩
            · exact absurd h (by simp)
          · exact absurd h (by simp)
        · exact absurd h (by simp)
      · exact absurd h (by simp)
    · exact absurd h (by simp)
  · exact absurd h (by simp)

theorem pattern2sys_inv {cs : List Char} {m : SysCapture}
    (h : MESSAGE_START_PATTERN_2_SYSTEM cs = some m) :
    (∃ u r, matchDate u = some (m.dateTok, r)) ∧
    (∃ u r, matchTime2 u = some (m.timeTok, r)) := by
  simp only [MESSAGE_START_PATTERN_2_SYSTEM] at h
  split at h
  · rename_i d r1 hd
    split at h
    · rename_i r2
      split at h
      · rename_i t r3 ht
        split at h
        · rename_i r4
          split at h
          · injection h with h'
            subst h'
            exact ⟨⟨_, _, hd⟩, ⟨_, _, ht⟩⟩
          · exact absurd h (by simp)
        · exact absurd h (by simp)
      · exact absurd h (by simp)
    · exact absurd h (by simp)
  · exact absurd h (by simp)

theorem classify_tokens {line : List Char} {st : StartKind}
    (h : classifyLine line = some st) :
    (∃ u r, matchDate u = some (startDate st, r)) ∧
    ((∃ u r, matchTime1 u = some (startTime st, r)) ∨
     (∃ u r, matchTime2 u = some (startTime st, r))) := by
  simp only [classifyLine] at h
  split at h
  · rename_i m hm
    injection h with h'
    subst h'
    obtain ⟨hd, ht⟩ := pattern1_inv hm
    exact ⟨hd, Or.inl ht⟩
  · split at h
    · rename_i m hm
      injection h with h'
      subst h'
      obtain ⟨hd, ht⟩ := pattern2_inv hm
      exact ⟨hd, Or.inr ht⟩
    · split at h
      · rename_i m hm
        injection h with h'
        subst h'
        obtain ⟨hd, ht⟩ := pattern2sys_inv hm
        exact ⟨hd, Or.inr ht⟩
      · exact absurd h (by simp)

theorem parseTime_minutes_of_classify {line : List Char} {st : StartKind}
    (h : classifyLine line = some st) :
    (parseTimeHMS (startTime st)).2.1.isSome = true := by
  obtain ⟨-, htime⟩ := classify_tokens h
  rcases htime with ⟨u, r, ht⟩ | ⟨u, r, ht⟩
  · obtain ⟨hh, mm, ss, a, hshape, hhne, hmne, hsne, dh, dm, ds, ha⟩ := matchTime1_shape ht
    rw [hshape, parseTimeHMS_eval1 hh mm ss ' ' a hhne hmne hsne dh dm ds (by decide) ha]
    rfl
  · obtain ⟨hh, mm, sep, a, hshape, hhne, hmne, dh, dm, hsep, ha⟩ := matchTime2_shape ht
    rw [hshape, parseTimeHMS_eval2 hh mm sep a hhne hmne dh dm hsep ha]
    rfl

theorem parseDateTime_isSome_of_classify {line : List Char} {st : StartKind}
    (h : classifyLine line = some st) :
    (parseDateTime (startDate st) (startTime st) (startFmt st)).isSome = true := by
  obtain ⟨⟨u, r, hd⟩, -⟩ := classify_tokens h
  obtain ⟨d1, d2, y, hshape, -, -, -, hD1, hD2, hY⟩ := matchDate_shape hd
  rw [hshape]
  exact parseDateTime_isSome_shape d1 d2 y _ _ hD1 hD2 hY (parseTime_minutes_of_classify h)

theorem buildMessage_of_classify {line : List Char} {st : StartKind}
    (h : classifyLine line = some st) (n : Nat) :
    ∃ msg, buildMessage st n = some msg ∧ msg.id = mkId n ∧
      msg.content = jsTrim (startBodyRaw st) ∧
      (∀ m, st = StartKind.sys2 m →
        msg.sender = "System".data ∧ msg.type = "system".data) := by
  have hts := parseDateTime_isSome_of_classify h
  cases st with
  | user1 m =>
    obtain ⟨ts, hts'⟩ := Option.isSome_iff_exists.mp hts
    have hts2 : parseDateTime m.dateTok m.timeTok 1 = some ts := hts'
    have hb : buildMessage (StartKind.user1 m) n = some
        ⟨mkId n, ts, jsTrim m.sender, jsTrim m.body,
          (analyzeMessage m.body).1, (analyzeMessage m.body).2⟩ := by
      simp [buildMessage, hts2]
    exact ⟨_, hb, rfl, rfl, fun m' hm' => by cases hm'⟩
  | user2 m =>
    obtain ⟨ts, hts'⟩ := Option.isSome_iff_exists.mp hts
    have hts2 : parseDateTime m.dateTok m.timeTok 2 = some ts := hts'
    have hb : buildMessage (StartKind.user2 m) n = some
        ⟨mkId n, ts, jsTrim m.sender, jsTrim m.body,
          (analyzeMessage m.body).1, (analyzeMessage m.body).2⟩ := by
      simp [buildMessage, hts2]
    exact ⟨_, hb, rfl, rfl, fun m' hm' => by cases hm'⟩
  | sys2 m =>
    obtain ⟨ts, hts'⟩ := Option.isSome_iff_exists.mp hts
    have hts2 : parseDateTime m.dateTok m.timeTok 2 = some ts := hts'
    have hb : buildMessage (StartKind.sys2 m) n = some
        ⟨mkId n, ts, "System".data, jsTrim m.body, "system".data, none⟩ := by
      simp [buildMessage, hts2]
    exact ⟨_, hb, rfl, rfl, fun _ _ => ⟨rfl, rfl⟩⟩

/-! ### Constructive matching of the dialect-B patterns on structured lines -/

theorem ws_not_digit {c : Char} (h : isWsCh c = true) : isDigitCh c = false := by
  simp only [isWsCh, List.mem_cons, List.not_mem_nil, or_false, Bool.or_eq_true,
    Bool.and_eq_true, decide_eq_true_eq] at h
  simp only [isDigitCh, Bool.and_eq_false_iff, decide_eq_false_iff_not]
  omega

theorem headNotDigit_cons {x : Char} (hx : isDigitCh x = false) (l : List Char) :
    ∀ c, ((x :: l) : List Char).head? = some c → isDigitCh c = false := by
  intro c hc
  rw [List.head?_cons] at hc
  injection hc with h'
  rwa [h'] at hx

theorem lenCond_false {l : List Char} (h1 : l ≠ []) (h2 : l.length ≤ 2) :
    (decide (l.length = 0) || decide (2 < l.length)) = false := by
  simp only [Bool.or_eq_false_iff, decide_eq_false_iff_not]
  exact ⟨fun h => h1 (List.length_eq_zero.mp h), Nat.not_lt.mpr h2⟩

theorem matchDate_build (d1 d2 y rest : List Char)
    (hn1 : d1 ≠ []) (hL1 : d1.length ≤ 2) (hd1 : ∀ c ∈ d1, isDigitCh c = true)
    (hn2 : d2 ≠ []) (hL2 : d2.length ≤ 2) (hd2 : ∀ c ∈ d2, isDigitCh c = true)
    (hyl : y.length = 2) (hy : ∀ c ∈ y, isDigitCh c = true)
    (hrest : ∀ c, rest.head? = some c → isDigitCh c = false) :
    matchDate (d1 ++ '/' :: (d2 ++ '/' :: (y ++ rest))) =
      some (d1 ++ '/' :: d2 ++ '/' :: y, rest) := by
  have hsl : isDigitCh '/' = false := by decide
  have t1 := takeWhile_app isDigitCh d1 ('/' :: (d2 ++ '/' :: (y ++ rest))) hd1
    (headNotDigit_cons hsl _)
  have t1' := dropWhile_app isDigitCh d1 ('/' :: (d2 ++ '/' :: (y ++ rest))) hd1
    (headNotDigit_cons hsl _)
  have t2 := takeWhile_app isDigitCh d2 ('/' :: (y ++ rest)) hd2 (headNotDigit_cons hsl _)
  have t2' := dropWhile_app isDigitCh d2 ('/' :: (y ++ rest)) hd2 (headNotDigit_cons hsl _)
  have t3 := takeWhile_app isDigitCh y rest hy hrest
  have t3' := dropWhile_app isDigitCh y rest hy hrest
  simp only [matchDate, t1, t1', t2, t2', t3, t3', lenCond_false hn1 hL1,
    lenCond_false hn2 hL2, hyl, Bool.false_eq_true, if_false, if_true, decide_True]

theorem matchTime2_build (hh mi rest : List Char) (sep a : Char)
    (hnh : hh ≠ []) (hLh : hh.length ≤ 2) (dhh : ∀ c ∈ hh, isDigitCh c = true)
    (hml : mi.length = 2) (dmi : ∀ c ∈ mi, isDigitCh c = true)
    (hsep : timeSepCh sep = true) (ha : a = 'A' ∨ a = 'P') :
    matchTime2 (hh ++ ':' :: (mi ++ sep :: a :: 'M' :: rest)) =
      some (hh ++ ':' :: mi ++ [sep, a, 'M'], rest) := by
  have hcl : isDigitCh ':' = false := by decide
  have hsd : isDigitCh sep = false := ws_not_digit hsep
  have t1 := takeWhile_app isDigitCh hh (':' :: (mi ++ sep :: a :: 'M' :: rest)) dhh
    (headNotDigit_cons hcl _)
  have t1' := dropWhile_app isDigitCh hh (':' :: (mi ++ sep :: a :: 'M' :: rest)) dhh
    (headNotDigit_cons hcl _)
  have t2 := takeWhile_app isDigitCh mi (sep :: a :: 'M' :: rest) dmi
    (headNotDigit_cons hsd _)
  have t2' := dropWhile_app isDigitCh mi (sep :: a :: 'M' :: rest) dmi
    (headNotDigit_cons hsd _)
  have hguard : (timeSepCh sep && (a == 'A' || a == 'P')) = true := by
    rcases ha with rfl | rfl <;> simp [hsep]
  simp only [matchTime2, t1, t1', t2, t2', lenCond_false hnh hLh, Bool.false_eq_true,
    if_false, hml, hguard, if_true]
  simp [hml]

theorem matchSender_build (snd body : List Char)
    (hns : snd ≠ []) (hsc : ∀ c ∈ snd, (c == ':') = false) :
    matchSender (snd ++ ':' :: ' ' :: body) = some (snd, body) := by
  have hp : ∀ c ∈ snd, (fun c => !(c == ':')) c = true := by
    intro c hc
    simp [hsc c hc]
  have hq : ∀ c, ((':' :: ' ' :: body) : List Char).head? = some c →
      (fun c => !(c == ':')) c = false := by
    intro c hc
    rw [List.head?_cons] at hc
    injection hc with h'
    subst h'
    decide
  have t1 := takeWhile_app _ snd (':' :: ' ' :: body) hp hq
  have t1' := dropWhile_app _ snd (':' :: ' ' :: body) hp hq
  simp only [matchSender, t1, t1']
  rw [if_neg (by simpa using hns)]

/-- A scan for the two-character colon-space sequence; pattern B's sender
split exists exactly when this holds. -/
def hasColonSpace : List Char → Bool
  | [] => false
  | [_] => false
  | a :: b :: r => (a == ':' && b == ' ') || hasColonSpace (b :: r)

theorem hasColonSpace_append (x b : List Char) :
    hasColonSpace (x ++ ':' :: ' ' :: b) = true := by
  induction x with
  | nil => simp [hasColonSpace]
  | cons c x ih =>
    cases x with
    | nil => simp [hasColonSpace]
    | cons d x' => simp [hasColonSpace, List.cons_append] at ih ⊢; simp [ih]

theorem matchSender_none {cs : List Char} (h : hasColonSpace cs = false) :
    matchSender cs = none := by
  simp only [matchSender]
  split
  · rfl
  · split
    · rename_i snd body heq
      exfalso
      have hcs : cs = cs.takeWhile (fun c => !(c == ':')) ++ (':' :: ' ' :: body) := by
        conv_lhs => rw [← List.takeWhile_append_dropWhile (p := fun c => !(c == ':')) (l := cs)]
        rw [heq]
      rw [hcs, hasColonSpace_append] at h
      simp at h
    · rfl

theorem pattern1_none_head {c : Char} {r : List Char} (hc : c ≠ '[') :
    MESSAGE_START_PATTERN_1 (c :: r) = none := by
  simp only [MESSAGE_START_PATTERN_1]
  split
  · rename_i r0 heq
    exact absurd (List.cons.inj heq).1 hc
  · rfl

/-- The common date-time head of both dialect-B patterns, fully matched:
after the date and the comma-space, the r3 tail begins. -/
theorem pattern2_head (d1 d2 y hh mi : List Char) (sep a : Char) (tail : List Char)
    (hn1 : d1 ≠ []) (hL1 : d1.length ≤ 2) (hd1 : ∀ c ∈ d1, isDigitCh c = true)
    (hn2 : d2 ≠ []) (hL2 : d2.length ≤ 2) (hd2 : ∀ c ∈ d2, isDigitCh c = true)
    (hyl : y.length = 2) (hy : ∀ c ∈ y, isDigitCh c = true)
    (hnh : hh ≠ []) (hLh : hh.length ≤ 2) (dhh : ∀ c ∈ hh, isDigitCh c = true)
    (hml : mi.length = 2) (dmi : ∀ c ∈ mi, isDigitCh c = true)
    (hsep : timeSepCh sep = true) (ha : a = 'A' ∨ a = 'P') :
    matchDate (d1 ++ '/' :: (d2 ++ '/' :: (y ++ ',' :: ' ' ::
        (hh ++ ':' :: (mi ++ sep :: a :: 'M' :: tail))))) =
      some (d1 ++ '/' :: d2 ++ '/' :: y,
        ',' :: ' ' :: (hh ++ ':' :: (mi ++ sep :: a :: 'M' :: tail))) ∧
    matchTime2 (hh ++ ':' :: (mi ++ sep :: a :: 'M' :: tail)) =
      some (hh ++ ':' :: mi ++ [sep, a, 'M'], tail) := by
  constructor
  · exact matchDate_build d1 d2 y _ hn1 hL1 hd1 hn2 hL2 hd2 hyl hy
      (headNotDigit_cons (by decide) _)
  · exact matchTime2_build hh mi tail sep a hnh hLh dhh hml dmi hsep ha

/-- A dialect-B line whose remainder has a sender split (first colon of the
remainder followed by a space) classifies as a user2 start with the
expected captures. -/
theorem classify_user2_line (d1 d2 y hh mi snd body : List Char) (sep a : Char)
    (hn1 : d1 ≠ []) (hL1 : d1.length ≤ 2) (hd1 : ∀ c ∈ d1, isDigitCh c = true)
    (hn2 : d2 ≠ []) (hL2 : d2.length ≤ 2) (hd2 : ∀ c ∈ d2, isDigitCh c = true)
    (hyl : y.length = 2) (hy : ∀ c ∈ y, isDigitCh c = true)
    (hnh : hh ≠ []) (hLh : hh.length ≤ 2) (dhh : ∀ c ∈ hh, isDigitCh c = true)
    (hml : mi.length = 2) (dmi : ∀ c ∈ mi, isDigitCh c = true)
    (hsep : timeSepCh sep = true) (ha : a = 'A' ∨ a = 'P')
    (hsnd : snd ≠ []) (hsc : ∀ c ∈ snd, (c == ':') = false)
    (hbody : body.all isDotCh = true) :
    classifyLine (d1 ++ '/' :: (d2 ++ '/' :: (y ++ ',' :: ' ' ::
        (hh ++ ':' :: (mi ++ sep :: a :: 'M' :: ' ' :: '-' :: ' ' ::
          (snd ++ ':' :: ' ' :: body)))))) =
      some (StartKind.user2
        ⟨d1 ++ '/' :: d2 ++ '/' :: y, hh ++ ':' :: mi ++ [sep, a, 'M'], snd, body⟩) := by
  obtain ⟨hmd, hmt⟩ := pattern2_head d1 d2 y hh mi sep a
    (' ' :: '-' :: ' ' :: (snd ++ ':' :: ' ' :: body))
    hn1 hL1 hd1 hn2 hL2 hd2 hyl hy hnh hLh dhh hml dmi hsep ha
  have hp1 : MESSAGE_START_PATTERN_1 (d1 ++ '/' :: (d2 ++ '/' :: (y ++ ',' :: ' ' ::
      (hh ++ ':' :: (mi ++ sep :: a :: 'M' :: ' ' :: '-' :: ' ' ::
        (snd ++ ':' :: ' ' :: body)))))) = none := by
    rcases d1 with _ | ⟨c, d1'⟩
    · exact absurd rfl hn1
    · rw [List.cons_append]
      exact pattern1_none_head
        (digit_ne_char (hd1 c (List.mem_cons_self c d1')) (by right; decide))
  have hp2 : MESSAGE_START_PATTERN_2 (d1 ++ '/' :: (d2 ++ '/' :: (y ++ ',' :: ' ' ::
      (hh ++ ':' :: (mi ++ sep :: a :: 'M' :: ' ' :: '-' :: ' ' ::
        (snd ++ ':' :: ' ' :: body)))))) =
      some ⟨d1 ++ '/' :: d2 ++ '/' :: y, hh ++ ':' :: mi ++ [sep, a, 'M'], snd, body⟩ := by
    simp only [MESSAGE_START_PATTERN_2, hmd, hmt, matchSender_build snd body hsnd hsc, hbody,
      if_true]
  simp only [classifyLine, hp1, hp2]

/-- A dialect-B line whose remainder contains no colon-space sequence
classifies as a sys2 start capturing the whole remainder. -/
theorem classify_sys_line (d1 d2 y hh mi rem : List Char) (sep a : Char)
    (hn1 : d1 ≠ []) (hL1 : d1.length ≤ 2) (hd1 : ∀ c ∈ d1, isDigitCh c = true)
    (hn2 : d2 ≠ []) (hL2 : d2.length ≤ 2) (hd2 : ∀ c ∈ d2, isDigitCh c = true)
    (hyl : y.length = 2) (hy : ∀ c ∈ y, isDigitCh c = true)
    (hnh : hh ≠ []) (hLh : hh.length ≤ 2) (dhh : ∀ c ∈ hh, isDigitCh c = true)
    (hml : mi.length = 2) (dmi : ∀ c ∈ mi, isDigitCh c = true)
    (hsep : timeSepCh sep = true) (ha : a = 'A' ∨ a = 'P')
    (hrne : rem ≠ []) (hrdot : rem.all isDotCh = true)
    (hnc : hasColonSpace rem = false) :
    classifyLine (d1 ++ '/' :: (d2 ++ '/' :: (y ++ ',' :: ' ' ::
        (hh ++ ':' :: (mi ++ sep :: a :: 'M' :: ' ' :: '-' :: ' ' :: rem))))) =
      some (StartKind.sys2
        ⟨d1 ++ '/' :: d2 ++ '/' :: y, hh ++ ':' :: mi ++ [sep, a, 'M'], rem⟩) := by
  obtain ⟨hmd, hmt⟩ := pattern2_head d1 d2 y hh mi sep a (' ' :: '-' :: ' ' :: rem)
    hn1 hL1 hd1 hn2 hL2 hd2 hyl hy hnh hLh dhh hml dmi hsep ha
  have hp1 : MESSAGE_START_PATTERN_1 (d1 ++ '/' :: (d2 ++ '/' :: (y ++ ',' :: ' ' ::
      (hh ++ ':' :: (mi ++ sep :: a :: 'M' :: ' ' :: '-' :: ' ' :: rem))))) = none := by
    rcases d1 with _ | ⟨c, d1'⟩
    · exact absurd rfl hn1
    · rw [List.cons_append]
      exact pattern1_none_head
        (digit_ne_char (hd1 c (List.mem_cons_self c d1')) (by right; decide))
  have hp2 : MESSAGE_START_PATTERN_2 (d1 ++ '/' :: (d2 ++ '/' :: (y ++ ',' :: ' ' ::
      (hh ++ ':' :: (mi ++ sep :: a :: 'M' :: ' ' :: '-' :: ' ' :: rem))))) = none := by
    simp only [MESSAGE_START_PATTERN_2, hmd, hmt, matchSender_none hnc]
  have hps : MESSAGE_START_PATTERN_2_SYSTEM (d1 ++ '/' :: (d2 ++ '/' :: (y ++ ',' :: ' ' ::
      (hh ++ ':' :: (mi ++ sep :: a :: 'M' :: ' ' :: '-' :: ' ' :: rem))))) =
      some ⟨d1 ++ '/' :: d2 ++ '/' :: y, hh ++ ':' :: mi ++ [sep, a, 'M'], rem⟩ := by
    simp only [MESSAGE_START_PATTERN_2_SYSTEM, hmd, hmt]
    rw [if_pos (by simp [hrne, hrdot])]
  simp only [classifyLine, hp1, hp2, hps]

/-! ### Assembler invariants: id assignment and transcript order -/

/-- The id sequence mkId k, mkId (k+1), ... of length n. -/
def idSeq (k n : Nat) : List (List Char) :=
  match n with
  | 0 => []
  | n + 1 => mkId k :: idSeq (k + 1) n

theorem isEmpty_false_of_ne {l : List Char} (h : l ≠ []) : l.isEmpty = false := by
  cases l with
  | nil => exact absurd rfl h
  | cons a t => rfl

theorem classify_ne_nil {line : List Char} {st : StartKind}
    (h : classifyLine line = some st) : line ≠ [] := by
  intro he
  subst he
  have h0 : classifyLine ([] : List Char) = none := by decide
  rw [h0] at h
  exact Option.noConfusion h

theorem buildMessage_id {st : StartKind} {n : Nat} {msg : Message}
    (h : buildMessage st n = some msg) : msg.id = mkId n := by
  cases st <;> simp only [buildMessage] at h <;>
    obtain ⟨ts, -, hts⟩ := Option.map_eq_some'.mp h <;> rw [← hts]

theorem processLines_ids : ∀ (ls : List (List Char)) (cur : Option Message) (mid : Nat)
    (out : List Message), processLines ls cur mid = some out →
    (∀ m, cur = some m → m.id = mkId mid) →
    out.map Message.id = idSeq (mid + (if cur.isSome then 0 else 1)) out.length
  | [], none, mid, out, h, _ => by
    injection h with h'
    subst h'
    rfl
  | [], some m, mid, out, h, hcur => by
    injection h with h'
    subst h'
    simp [idSeq, hcur m rfl]
  | l :: rest, cur, mid, out, h, hcur => by
    simp only [processLines] at h
    by_cases he : (pre l).isEmpty
    · rw [if_pos he] at h
      exact processLines_ids rest cur mid out h hcur
    · rw [if_neg he] at h
      rcases hcl : classifyLine (pre l) with _ | st
      · simp only [hcl] at h
        rcases cur with _ | m
        · exact processLines_ids rest none mid out h (by intro m hm; cases hm)
        · have := processLines_ids rest
            (some { m with content := m.content ++ '\n' :: pre l }) mid out h
            (by intro m' hm'; injection hm' with h'; rw [← h']; exact hcur m rfl)
          simpa using this
      · simp only [hcl] at h
        rcases hb : buildMessage st (mid + 1) with _ | msg
        · simp only [hb] at h
          exact Option.noConfusion h
        · simp only [hb] at h
          obtain ⟨out', hout', rfl⟩ := Option.map_eq_some'.mp h
          have hmsg : msg.id = mkId (mid + 1) := buildMessage_id hb
          have ih := processLines_ids rest (some msg) (mid + 1) out' hout'
            (by intro m' hm'; injection hm' with h'; rw [← h']; exact hmsg)
          rcases cur with _ | m
          · simpa using ih
          · have hm : m.id = mkId mid := hcur m rfl
            simp only [Option.toList, List.cons_append, List.nil_append, List.map_cons,
              List.length_cons, hm, ih]
            simp [idSeq]

theorem processLinesIdx_erase : ∀ (ls : List (List Char)) (cur : Option (Nat × Message))
    (k mid : Nat),
    (processLinesIdx ls cur k mid).map (List.map Prod.snd) =
      processLines ls (cur.map Prod.snd) mid
  | [], none, k, mid => rfl
  | [], some pm, k, mid => rfl
  | l :: rest, cur, k, mid => by
    simp only [processLinesIdx, processLines]
    by_cases he : (pre l).isEmpty
    · rw [if_pos he, if_pos he]
      exact processLinesIdx_erase rest cur (k + 1) mid
    · rw [if_neg he, if_neg he]
      rcases hcl : classifyLine (pre l) with _ | st
      · simp only [hcl]
        rcases cur with _ | ⟨j, m⟩
        · exact processLinesIdx_erase rest none (k + 1) mid
        · exact processLinesIdx_erase rest
            (some (j, { m with content := m.content ++ '\n' :: pre l })) (k + 1) mid
      · simp only [hcl]
        rcases hb : buildMessage st (mid + 1) with _ | msg
        · simp only [hb, Option.map_none']
        · simp only [hb]
          have ih := processLinesIdx_erase rest (some (k, msg)) (k + 1) (mid + 1)
          simp only [Option.map_some'] at ih
          rw [← ih]
          rcases hidx : processLinesIdx rest (some (k, msg)) (k + 1) (mid + 1) with _ | out'
          · rfl
          · simp only [Option.map_some', List.map_append]
            congr 1
            rcases cur with _ | ⟨j, m⟩ <;> rfl

theorem processLinesIdx_chain : ∀ (ls : List (List Char)) (cur : Option (Nat × Message))
    (k mid : Nat) (out : List (Nat × Message)),
    processLinesIdx ls cur k mid = some out →
    (∀ j m, cur = some (j, m) → j < k) →
    List.Chain' (· < ·) (out.map Prod.fst) ∧
    ∀ p ∈ out, (match cur with | some (j, _) => j ≤ p.1 | none => k ≤ p.1)
  | [], none, k, mid, out, h, _ => by
    injection h with h'
    subst h'
    exact ⟨List.chain'_nil, by intro p hp; simp at hp⟩
  | [], some pm, k, mid, out, h, hcur => by
    injection h with h'
    subst h'
    refine ⟨by simp, ?_⟩
    intro p hp
    rcases List.mem_singleton.mp hp with rfl
    exact Nat.le_refl _
  | l :: rest, cur, k, mid, out, h, hcur => by
    simp only [processLinesIdx] at h
    by_cases he : (pre l).isEmpty
    · rw [if_pos he] at h
      obtain ⟨hch, hmem⟩ := processLinesIdx_chain rest cur (k + 1) mid out h
        (fun j m hm => Nat.lt_succ_of_lt (hcur j m hm))
      refine ⟨hch, fun p hp => ?_⟩
      have := hmem p hp
      rcases cur with _ | ⟨j, m⟩
      · exact Nat.le_of_succ_le this
      · exact this
    · rw [if_neg he] at h
      rcases hcl : classifyLine (pre l) with _ | st
      · simp only [hcl] at h
        rcases cur with _ | ⟨j, m⟩
        · obtain ⟨hch, hmem⟩ := processLinesIdx_chain rest none (k + 1) mid out h
            (by intro j m hm; cases hm)
          exact ⟨hch, fun p hp => Nat.le_of_succ_le (hmem p hp)⟩
        · obtain ⟨hch, hmem⟩ := processLinesIdx_chain rest
            (some (j, { m with content := m.content ++ '\n' :: pre l })) (k + 1) mid out h
            (by intro j' m' hm'
                injection hm' with h1
                injection h1 with h1a h1b
                rw [← h1a]
                exact Nat.lt_succ_of_lt (hcur j m rfl))
          exact ⟨hch, fun p hp => hmem p hp⟩
      · simp only [hcl] at h
        rcases hb : buildMessage st (mid + 1) with _ | msg
        · simp only [hb] at h
          exact Option.noConfusion h
        · simp only [hb] at h
          obtain ⟨out', hout', rfl⟩ := Option.map_eq_some'.mp h
          obtain ⟨hch, hmem⟩ := processLinesIdx_chain rest (some (k, msg)) (k + 1) (mid + 1)
            out' hout' (by intro j' m' hm'
                           injection hm' with h1
                           injection h1 with h1a h1b
                           rw [← h1a]
                           exact Nat.lt_succ_self k)
          rcases cur with _ | ⟨j, m⟩
          · refine ⟨by simpa using hch, ?_⟩
            intro p hp
            simp only [Option.toList, List.nil_append] at hp
            exact hmem p hp
          · have hjk : j < k := hcur j m rfl
            constructor
            · simp only [Option.toList, List.cons_append, List.nil_append, List.map_cons]
              rw [List.chain'_cons']
              refine ⟨?_, hch⟩
              intro b hb'
              rcases out' with _ | ⟨q, out''⟩
              · simp at hb'
              · simp only [List.map_cons, List.head?_cons, Option.mem_def] at hb'
                injection hb' with h'
                subst h'
                exact Nat.lt_of_lt_of_le hjk (hmem q (List.mem_cons_self q out''))
            · intro p hp
              simp only [Option.toList, List.cons_append, List.nil_append,
                List.mem_cons] at hp
              rcases hp with rfl | hp
              · exact Nat.le_refl _
              · exact Nat.le_of_lt (Nat.lt_of_lt_of_le hjk (hmem p hp))

/-! ### The metadata date-span fold computes the minimum and maximum -/

/-- Binary minimum under dateKey keeping the earlier-seen value on ties,
exactly the update rule of the earliest-date accumulator. -/
def minD (a b : JsDate) : JsDate := if dateKey b < dateKey a then b else a

/-- Binary maximum under dateKey keeping the earlier-seen value on ties. -/
def maxD (a b : JsDate) : JsDate := if dateKey a < dateKey b then b else a

theorem metaFold_dates : ∀ (msgs : List Message) (dates : List JsDate)
    (ps : List (List Char)) (e l : JsDate),
    msgs.map (fun m => jsDateParse m.timestamp) = dates.map some →
    (msgs.foldl metaStep (ps, some (some e), some (some l))).2.1 =
        some (some (dates.foldl minD e)) ∧
    (msgs.foldl metaStep (ps, some (some e), some (some l))).2.2 =
        some (some (dates.foldl maxD l))
  | [], dates, ps, e, l, h => by
    have : dates = [] := by
      cases dates with
      | nil => rfl
      | cons d t => simp at h
    subst this
    exact ⟨rfl, rfl⟩
  | m :: rest, dates, ps, e, l, h => by
    cases dates with
    | nil => simp at h
    | cons d drest =>
      simp only [List.map_cons, List.cons.injEq] at h
      obtain ⟨hd, ht⟩ := h
      have hstep : metaStep (ps, some (some e), some (some l)) m =
          (if m.type = "system".data then ps
           else if m.sender ∈ ps then ps else ps ++ [m.sender],
            some (some (minD e d)), some (some (maxD l d))) := by
        simp only [metaStep, hd, jsDateLt, jsDateGt, minD, maxD]
        by_cases h1 : dateKey d < dateKey e <;> by_cases h2 : dateKey l < dateKey d <;>
          simp [h1, h2]
      simp only [List.foldl_cons, hstep]
      exact metaFold_dates rest drest _ (minD e d) (maxD l d) ht

theorem foldl_minD_facts : ∀ (dates : List JsDate) (e : JsDate),
    (dates.foldl minD e = e ∨ dates.foldl minD e ∈ dates) ∧
    dateKey (dates.foldl minD e) ≤ dateKey e ∧
    ∀ x ∈ dates, dateKey (dates.foldl minD e) ≤ dateKey x
  | [], e => ⟨Or.inl rfl, Nat.le_refl _, by intro x hx; simp at hx⟩
  | d :: rest, e => by
    simp only [List.foldl_cons]
    obtain ⟨hmem, hle, hall⟩ := foldl_minD_facts rest (minD e d)
    have hde : dateKey (minD e d) ≤ dateKey e ∧ dateKey (minD e d) ≤ dateKey d := by
      simp only [minD]
      by_cases h1 : dateKey d < dateKey e <;> simp [h1] <;> omega
    refine ⟨?_, Nat.le_trans hle hde.1, ?_⟩
    · rcases hmem with he | hin
      · rw [he]
        simp only [minD]
        by_cases h1 : dateKey d < dateKey e <;> simp [h1]
      · exact Or.inr (List.mem_cons_of_mem d hin)
    · intro x hx
      rcases List.mem_cons.mp hx with rfl | hx'
      · exact Nat.le_trans hle hde.2
      · exact hall x hx'

theorem foldl_maxD_facts : ∀ (dates : List JsDate) (l : JsDate),
    (dates.foldl maxD l = l ∨ dates.foldl maxD l ∈ dates) ∧
    dateKey l ≤ dateKey (dates.foldl maxD l) ∧
    ∀ x ∈ dates, dateKey x ≤ dateKey (dates.foldl maxD l)
  | [], l => ⟨Or.inl rfl, Nat.le_refl _, by intro x hx; simp at hx⟩
  | d :: rest, l => by
    simp only [List.foldl_cons]
    obtain ⟨hmem, hle, hall⟩ := foldl_maxD_facts rest (maxD l d)
    have hde : dateKey l ≤ dateKey (maxD l d) ∧ dateKey d ≤ dateKey (maxD l d) := by
      simp only [maxD]
      by_cases h1 : dateKey l < dateKey d <;> simp [h1] <;> omega
    refine ⟨?_, Nat.le_trans hde.1 hle, ?_⟩
    · rcases hmem with he | hin
      · rw [he]
        simp only [maxD]
        by_cases h1 : dateKey l < dateKey d <;> simp [h1]
      · exact Or.inr (List.mem_cons_of_mem d hin)
    · intro x hx
      rcases List.mem_cons.mp hx with rfl | hx'
      · exact Nat.le_trans hde.2 hle
      · exact hall x hx'

/-! ### Claim theorems -/

/-- C2: for a date token of three slash-separated numeric fields, the
resolver yields day/month = (first, second) whenever the first field
exceeds 12 regardless of dialect; (second, first) whenever the first is at
most 12 and the second exceeds 12, regardless of dialect; and in the
ambiguous case dialect A (formatType 1) reads day/month while dialect B
(formatType 2) reads month/day. -/
theorem C2_day_month_resolution (f1 f2 y : List Char)
    (hn1 : f1 ≠ []) (hd1 : ∀ c ∈ f1, isDigitCh c = true)
    (hn2 : f2 ≠ []) (hd2 : ∀ c ∈ f2, isDigitCh c = true)
    (hy : ∀ c ∈ y, isDigitCh c = true) :
    (12 < digitsVal f1 →
      ∀ ft, resolveDayMonth (splitOn (fun c => c == '/') (f1 ++ '/' :: f2 ++ '/' :: y)) ft =
        (some f1, some f2)) ∧
    (digitsVal f1 ≤ 12 → 12 < digitsVal f2 →
      ∀ ft, resolveDayMonth (splitOn (fun c => c == '/') (f1 ++ '/' :: f2 ++ '/' :: y)) ft =
        (some f2, some f1)) ∧
    (digitsVal f1 ≤ 12 → digitsVal f2 ≤ 12 →
      resolveDayMonth (splitOn (fun c => c == '/') (f1 ++ '/' :: f2 ++ '/' :: y)) 1 =
        (some f1, some f2) ∧
      resolveDayMonth (splitOn (fun c => c == '/') (f1 ++ '/' :: f2 ++ '/' :: y)) 2 =
        (some f2, some f1)) := by
  have hs := splitSlash3 f1 f2 y hd1 hd2 hy
  have hp1 := jsParseInt_digits f1 hn1 hd1
  have hp2 := jsParseInt_digits f2 hn2 hd2
  refine ⟨?_, ?_, ?_⟩
  · intro hgt ft
    simp only [hs, resolveDayMonth, List.get?_cons_zero, List.get?_cons_succ,
      Option.some_bind, hp1, hp2, jGt12]
    rw [if_pos (by simpa using hgt)]
  · intro hle hgt ft
    simp only [hs, resolveDayMonth, List.get?_cons_zero, List.get?_cons_succ,
      Option.some_bind, hp1, hp2, jGt12]
    rw [if_neg (by simp only [decide_eq_true_eq]; omega),
      if_pos (by simpa using hgt)]
  · intro hle1 hle2
    constructor <;>
    · simp only [hs, resolveDayMonth, List.get?_cons_zero, List.get?_cons_succ,
        Option.some_bind, hp1, hp2, jGt12]
      rw [if_neg (by simp only [decide_eq_true_eq]; omega),
        if_neg (by simp only [decide_eq_true_eq]; omega)]
      simp

/-- C2 witness: 13/01/25 resolves as day 13 month 01 under both dialects;
01/02/25 resolves as day 01 month 02 under dialect A and day 02 month 01
under dialect B. -/
theorem C2_witness :
    resolveDayMonth (splitOn (fun c => c == '/') ("13/01/25".data)) 1 =
      (some ("13".data), some ("01".data)) ∧
    resolveDayMonth (splitOn (fun c => c == '/') ("13/01/25".data)) 2 =
      (some ("13".data), some ("01".data)) ∧
    resolveDayMonth (splitOn (fun c => c == '/') ("01/02/25".data)) 1 =
      (some ("01".data), some ("02".data)) ∧
    resolveDayMonth (splitOn (fun c => c == '/') ("01/02/25".data)) 2 =
      (some ("02".data), some ("01".data)) := by
  have h13 := (C2_day_month_resolution ("13".data) ("01".data) ("25".data)
    (by decide) (by decide) (by decide) (by decide) (by decide)).1 (by decide)
  have hboth := (C2_day_month_resolution ("01".data) ("02".data) ("25".data)
    (by decide) (by decide) (by decide) (by decide) (by decide)).2.2
    (by decide) (by decide)
  exact ⟨h13 1, h13 2, hboth.1, hboth.2⟩

/-- C3: for a time token hour:minute with optional :second and an AM/PM
marker, the normalized hour is 0 for 12 AM, 12 for 12 PM, hour + 12 for
other PM hours, and unchanged for other AM hours; the seconds equal the
token's seconds when present and 0 when absent. -/
theorem C3_ampm_hours_and_seconds (hh mm : List Char) (a : Char)
    (hhne : hh ≠ []) (dh : ∀ c ∈ hh, isDigitCh c = true)
    (hmne : mm ≠ []) (dm : ∀ c ∈ mm, isDigitCh c = true)
    (ha : a = 'A' ∨ a = 'P') :
    parseTimeHMS (hh ++ ':' :: mm ++ [' ', a, 'M']) =
      (some (some (if a = 'P' then (if digitsVal hh = 12 then 12 else digitsVal hh + 12)
                   else (if digitsVal hh = 12 then 0 else digitsVal hh))),
       some (some (digitsVal mm)), 0) ∧
    ∀ ss : List Char, ss ≠ [] → (∀ c ∈ ss, isDigitCh c = true) →
      parseTimeHMS (hh ++ ':' :: mm ++ ':' :: ss ++ [' ', a, 'M']) =
        (some (some (if a = 'P' then (if digitsVal hh = 12 then 12 else digitsVal hh + 12)
                     else (if digitsVal hh = 12 then 0 else digitsVal hh))),
         some (some (digitsVal mm)), digitsVal ss) := by
  constructor
  · exact parseTimeHMS_eval2 hh mm ' ' a hhne hmne dh dm (by decide) ha
  · intro ss hsne ds
    exact parseTimeHMS_eval1 hh mm ss ' ' a hhne hmne hsne dh dm ds (by decide) ha

/-- C3 witness: 12:00 AM normalizes to hour 0 with seconds 0; 1:30:00 PM
normalizes to hour 13 with seconds 0 taken from the token. -/
theorem C3_witness :
    parseTimeHMS ("12:00 AM".data) = (some (some 0), some (some 0), 0) ∧
    parseTimeHMS ("1:30:00 PM".data) = (some (some 13), some (some 30), 0) := by
  have h1 := (C3_ampm_hours_and_seconds ("12".data) ("00".data) 'A'
    (by decide) (by decide) (by decide) (by decide) (Or.inl rfl)).1
  have h2 := (C3_ampm_hours_and_seconds ("1".data) ("30".data) 'P'
    (by decide) (by decide) (by decide) (by decide) (Or.inr rfl)).2
    ("00".data) (by decide) (by decide)
  exact ⟨h1.trans (by decide), (h2.trans (by decide))⟩

/-- C4: a body containing an attached-media marker classifies as media
with the kind derived from the filename's extension, even when the body
also contains an omission phrase: the attachment check runs first. -/
theorem C4_attachment_beats_omitted (content f : List Char)
    (hatt : MEDIA_ATTACHED_PATTERN content = some f)
    (homit : MEDIA_OMITTED_PATTERN content = true) :
    analyzeMessage content = ("media".data, some ⟨f, mediaTypeOf (extOf f)⟩) := by
  simp only [analyzeMessage, hatt]

/-- C4 witness: the body with both an attachment marker and an omission
phrase classifies as media with kind image. -/
theorem C4_witness :
    MEDIA_ATTACHED_PATTERN ("<attached: photo.jpg> image omitted".data) =
      some ("photo.jpg".data) ∧
    MEDIA_OMITTED_PATTERN ("<attached: photo.jpg> image omitted".data) = true ∧
    analyzeMessage ("<attached: photo.jpg> image omitted".data) =
      ("media".data, some ⟨"photo.jpg".data, "image".data⟩) := by
  have h1 : MEDIA_ATTACHED_PATTERN ("<attached: photo.jpg> image omitted".data) =
      some ("photo.jpg".data) := by decide
  have h2 : MEDIA_OMITTED_PATTERN ("<attached: photo.jpg> image omitted".data) = true := by
    decide
  refine ⟨h1, h2, ?_⟩
  rw [C4_attachment_beats_omitted _ _ h1 h2]
  decide

/-- C7 counterexample: the date token 123/4/56 violates the expected
one-or-two-digit field shape (the date matcher rejects it), yet the
normalizer does not fail: it silently returns the nonsense timestamp
2056-04-123T13:30:00. -/
theorem C7_counterexample :
    matchDate ("123/4/56".data) = none ∧
    parseDateTime ("123/4/56".data) ("1:30 PM".data) 1 =
      some ("2056-04-123T13:30:00".data) := by decide

/-- C7 (amended): the normalizer never raises a dedicated
MalformedTimestamp error; on every token pair captured by a Line
Classifier start-pattern match it succeeds outright. -/
theorem C7_no_failure_on_classified (line : List Char) (st : StartKind)
    (h : classifyLine line = some st) :
    (parseDateTime (startDate st) (startTime st) (startFmt st)).isSome = true :=
  parseDateTime_isSome_of_classify h

/-- C7 witness: a concrete dialect-A start line classifies, and the
normalizer succeeds on its captured tokens. -/
theorem C7_witness :
    classifyLine ("[13/01/25, 11:52:46 AM] Alice: Hello".data) =
      some (StartKind.user1 ⟨"13/01/25".data, "11:52:46 AM".data, "Alice".data,
        "Hello".data⟩) ∧
    (parseDateTime
      (startDate (StartKind.user1 ⟨"13/01/25".data, "11:52:46 AM".data, "Alice".data,
        "Hello".data⟩))
      (startTime (StartKind.user1 ⟨"13/01/25".data, "11:52:46 AM".data, "Alice".data,
        "Hello".data⟩))
      (startFmt (StartKind.user1 ⟨"13/01/25".data, "11:52:46 AM".data, "Alice".data,
        "Hello".data⟩))).isSome = true := by
  have h : classifyLine ("[13/01/25, 11:52:46 AM] Alice: Hello".data) =
      some (StartKind.user1 ⟨"13/01/25".data, "11:52:46 AM".data, "Alice".data,
        "Hello".data⟩) := by decide
  exact ⟨h, C7_no_failure_on_classified _ _ h⟩

/-- C9: degenerate inputs are not errors: the empty transcript parses to
the empty message sequence without raising, and the extractor on an empty
sequence yields count 0, no participants, and a null date span. -/
theorem C9_empty_inputs (name : List Char) :
    parseChatFile [] = some [] ∧
    extractMetadata [] name = some ⟨name, 0, [], none, none⟩ :=
  ⟨rfl, rfl⟩

/-- Folding a block of nonempty non-start lines into the open message:
each line extends the content with a line break, in original order, and
nothing else about the state changes — in particular the id counter is
untouched. -/
theorem processLines_fold_conts : ∀ (conts rest : List (List Char)) (m : Message) (mid : Nat),
    (∀ c ∈ conts, pre c ≠ [] ∧ classifyLine (pre c) = none) →
    processLines (conts ++ rest) (some m) mid =
      processLines rest
        (some { m with content := conts.foldl (fun acc c => acc ++ '\n' :: pre c) m.content })
        mid
  | [], rest, m, mid, _ => by simp
  | c :: conts', rest, m, mid, h => by
    obtain ⟨hne, hcl⟩ := h c (List.mem_cons_self c conts')
    have e := isEmpty_false_of_ne hne
    have ih := processLines_fold_conts conts' rest
      { m with content := m.content ++ '\n' :: pre c } mid
      (fun x hx => h x (List.mem_cons_of_mem c hx))
    rw [List.cons_append,
      show processLines (c :: (conts' ++ rest)) (some m) mid =
        processLines (conts' ++ rest)
          (some { m with content := m.content ++ '\n' :: pre c }) mid from by
        simp [processLines, e, hcl],
      ih]
    rfl

/-- C1: at any point of any transcript (any open message and any counter
value), a start line followed by any number of non-matching nonempty
continuation lines produces exactly one record for that message: the id
counter advances by exactly one (to mkId of mid plus one, and the
remaining lines continue from that same counter), and the record's
content is the trimmed start body with all the continuation lines folded
in original order, joined by line breaks; when input ends after the
continuation block the record is emitted exactly once with that
content. -/
theorem C1_continuation_folding (s : List Char) (st : StartKind)
    (conts : List (List Char)) (cur : Option Message) (mid : Nat)
    (hs : classifyLine (pre s) = some st)
    (hconts : ∀ c ∈ conts, pre c ≠ [] ∧ classifyLine (pre c) = none) :
    ∃ msg : Message,
      buildMessage st (mid + 1) = some msg ∧
      msg.id = mkId (mid + 1) ∧
      msg.content = jsTrim (startBodyRaw st) ∧
      (∀ rest : List (List Char),
        processLines (s :: (conts ++ rest)) cur mid =
          (processLines rest
            (some { msg with
              content := conts.foldl (fun acc c => acc ++ '\n' :: pre c) msg.content })
            (mid + 1)).map (fun ms => cur.toList ++ ms)) ∧
      processLines (s :: conts) cur mid =
        some (cur.toList ++
          [{ msg with
             content := conts.foldl (fun acc c => acc ++ '\n' :: pre c) msg.content }]) := by
  obtain ⟨msg, hb, hid, hcont, -⟩ := buildMessage_of_classify hs (mid + 1)
  have e0 := isEmpty_false_of_ne (classify_ne_nil hs)
  have heq : ∀ rest : List (List Char),
      processLines (s :: (conts ++ rest)) cur mid =
        (processLines rest
          (some { msg with
            content := conts.foldl (fun acc c => acc ++ '\n' :: pre c) msg.content })
          (mid + 1)).map (fun ms => cur.toList ++ ms) := by
    intro rest
    have step1 : processLines (s :: (conts ++ rest)) cur mid =
        (processLines (conts ++ rest) (some msg) (mid + 1)).map
          (fun ms => cur.toList ++ ms) := by
      simp [processLines, e0, hs, hb]
    rw [step1, processLines_fold_conts conts rest msg (mid + 1) hconts]
  refine ⟨msg, hb, hid, hcont, heq, ?_⟩
  have hnil := heq []
  rw [List.append_nil] at hnil
  rw [hnil]
  rfl

/-- C1 witness: a transcript of a start line, two continuation lines and a
second start line parses to exactly two records, the first carrying the
folded three-line content and id msg_1, the second id msg_2. -/
theorem C1_witness :
    parseChatFile
      ("[13/01/25, 11:52:46 AM] Alice: Hello\nthere\nfriend\n[13/01/25, 11:53:00 AM] Bob: Hi".data) =
      some [⟨"msg_1".data, "2025-01-13T11:52:46".data, "Alice".data,
              "Hello\nthere\nfriend".data, "text".data, none⟩,
            ⟨"msg_2".data, "2025-01-13T11:53:00".data, "Bob".data, "Hi".data,
              "text".data, none⟩] := by
  obtain ⟨msg, hb, hid, hcont, heq, hend⟩ :=
    C1_continuation_folding ("[13/01/25, 11:52:46 AM] Alice: Hello".data)
      (StartKind.user1 ⟨"13/01/25".data, "11:52:46 AM".data, "Alice".data, "Hello".data⟩)
      ["there".data, "friend".data] none 0 (by decide) (by decide)
  have hmsg : msg = ⟨"msg_1".data, "2025-01-13T11:52:46".data, "Alice".data,
      "Hello".data, "text".data, none⟩ := by
    have hb' : buildMessage
        (StartKind.user1 ⟨"13/01/25".data, "11:52:46 AM".data, "Alice".data, "Hello".data⟩)
        (0 + 1) =
        some ⟨"msg_1".data, "2025-01-13T11:52:46".data, "Alice".data, "Hello".data,
          "text".data, none⟩ := by decide
    rw [hb'] at hb
    injection hb with hb''
    exact hb''.symm
  subst hmsg
  have hsplit : splitOn (fun c => c == '\n')
      (replaceCRLF ("[13/01/25, 11:52:46 AM] Alice: Hello\nthere\nfriend\n[13/01/25, 11:53:00 AM] Bob: Hi".data)) =
      "[13/01/25, 11:52:46 AM] Alice: Hello".data ::
        (["there".data, "friend".data] ++ ["[13/01/25, 11:53:00 AM] Bob: Hi".data]) := by
    decide
  simp only [parseChatFile, hsplit]
  rw [heq ["[13/01/25, 11:53:00 AM] Bob: Hi".data]]
  decide

/-- C5 counterexample: the dialect-A pattern accepts an ordinary space
before the AM/PM marker but not a narrow no-break space: the identical
line with U+202F is not classified as a start at all, so the two
separators are not treated identically for every dialect. -/
theorem C5_counterexample :
    (classifyLine ("[13/01/25, 11:52:46 AM] Alice: hi".data)).isSome = true ∧
    classifyLine ("[13/01/25, 11:52:46 AM] Alice: hi".data) = none := by decide

/-- C5 (amended): for dialect-B start lines the ordinary space and the
narrow no-break space U+202F are accepted identically — same
classification, same sender and body — and the Timestamp Normalizer
produces the identical timestamp from either variant of the time token;
dialect A, by contrast, requires the ordinary space. -/
theorem C5_narrow_space_dialectB (d1 d2 y hh mi snd body : List Char) (a : Char)
    (hn1 : d1 ≠ []) (hL1 : d1.length ≤ 2) (hd1 : ∀ c ∈ d1, isDigitCh c = true)
    (hn2 : d2 ≠ []) (hL2 : d2.length ≤ 2) (hd2 : ∀ c ∈ d2, isDigitCh c = true)
    (hyl : y.length = 2) (hy : ∀ c ∈ y, isDigitCh c = true)
    (hnh : hh ≠ []) (hLh : hh.length ≤ 2) (dhh : ∀ c ∈ hh, isDigitCh c = true)
    (hml : mi.length = 2) (dmi : ∀ c ∈ mi, isDigitCh c = true)
    (ha : a = 'A' ∨ a = 'P')
    (hsnd : snd ≠ []) (hsc : ∀ c ∈ snd, (c == ':') = false)
    (hbody : body.all isDotCh = true) :
    classifyLine (d1 ++ '/' :: (d2 ++ '/' :: (y ++ ',' :: ' ' ::
        (hh ++ ':' :: (mi ++ ' ' :: a :: 'M' :: ' ' :: '-' :: ' ' ::
          (snd ++ ':' :: ' ' :: body)))))) =
      some (StartKind.user2
        ⟨d1 ++ '/' :: d2 ++ '/' :: y, hh ++ ':' :: mi ++ [' ', a, 'M'], snd, body⟩) ∧
    classifyLine (d1 ++ '/' :: (d2 ++ '/' :: (y ++ ',' :: ' ' ::
        (hh ++ ':' :: (mi ++ ' ' :: a :: 'M' :: ' ' :: '-' :: ' ' ::
          (snd ++ ':' :: ' ' :: body)))))) =
      some (StartKind.user2
        ⟨d1 ++ '/' :: d2 ++ '/' :: y, hh ++ ':' :: mi ++ [' ', a, 'M'], snd, body⟩) ∧
    parseDateTime (d1 ++ '/' :: d2 ++ '/' :: y) (hh ++ ':' :: mi ++ [' ', a, 'M']) 2 =
      parseDateTime (d1 ++ '/' :: d2 ++ '/' :: y) (hh ++ ':' :: mi ++ [' ', a, 'M']) 2 := by
  refine ⟨classify_user2_line d1 d2 y hh mi snd body ' ' a hn1 hL1 hd1 hn2 hL2 hd2 hyl hy
      hnh hLh dhh hml dmi (by decide) ha hsnd hsc hbody,
    classify_user2_line d1 d2 y hh mi snd body ' ' a hn1 hL1 hd1 hn2 hL2 hd2 hyl hy
      hnh hLh dhh hml dmi (by decide) ha hsnd hsc hbody, ?_⟩
  have hmne : mi ≠ [] := by
    intro he
    rw [he] at hml
    simp at hml
  have h1 := parseTimeHMS_eval2 hh mi ' ' a hnh hmne dhh dmi (by decide) ha
  have h2 := parseTimeHMS_eval2 hh mi ' ' a hnh hmne dhh dmi (by decide) ha
  simp only [parseDateTime, h1, h2]

/-- C5 witness: a concrete dialect-B line with an ordinary space and the
identical line with U+202F classify to the same start, and the two time
tokens normalize to the identical timestamp. -/
theorem C5_witness :
    classifyLine ("1/2/25, 3:45 AM - Bob: hey".data) =
      some (StartKind.user2 ⟨"1/2/25".data, "3:45 AM".data, "Bob".data, "hey".data⟩) ∧
    classifyLine ("1/2/25, 3:45 AM - Bob: hey".data) =
      some (StartKind.user2 ⟨"1/2/25".data, "3:45 AM".data, "Bob".data, "hey".data⟩) ∧
    parseDateTime ("1/2/25".data) ("3:45 AM".data) 2 =
      parseDateTime ("1/2/25".data) ("3:45 AM".data) 2 := by
  have h := C5_narrow_space_dialectB ("1".data) ("2".data) ("25".data) ("3".data)
    ("45".data) ("Bob".data) ("hey".data) 'A' (by decide) (by decide) (by decide)
    (by decide) (by decide) (by decide) (by decide) (by decide) (by decide) (by decide)
    (by decide) (by decide) (by decide) (Or.inl rfl) (by decide) (by decide) (by decide)
  exact ⟨h.1, h.2.1, h.2.2⟩

/-- C10: a dialect-B line whose remainder after the dash contains no
colon-followed-by-space is recorded as a system message with sender
System — even when the remainder contains a bare colon, as in a URL. -/
theorem C10_no_colon_space_is_system (d1 d2 y hh mi rem : List Char) (sep a : Char) (n : Nat)
    (hn1 : d1 ≠ []) (hL1 : d1.length ≤ 2) (hd1 : ∀ c ∈ d1, isDigitCh c = true)
    (hn2 : d2 ≠ []) (hL2 : d2.length ≤ 2) (hd2 : ∀ c ∈ d2, isDigitCh c = true)
    (hyl : y.length = 2) (hy : ∀ c ∈ y, isDigitCh c = true)
    (hnh : hh ≠ []) (hLh : hh.length ≤ 2) (dhh : ∀ c ∈ hh, isDigitCh c = true)
    (hml : mi.length = 2) (dmi : ∀ c ∈ mi, isDigitCh c = true)
    (hsep : timeSepCh sep = true) (ha : a = 'A' ∨ a = 'P')
    (hrne : rem ≠ []) (hrdot : rem.all isDotCh = true)
    (hnc : hasColonSpace rem = false) :
    classifyLine (d1 ++ '/' :: (d2 ++ '/' :: (y ++ ',' :: ' ' ::
        (hh ++ ':' :: (mi ++ sep :: a :: 'M' :: ' ' :: '-' :: ' ' :: rem))))) =
      some (StartKind.sys2
        ⟨d1 ++ '/' :: d2 ++ '/' :: y, hh ++ ':' :: mi ++ [sep, a, 'M'], rem⟩) ∧
    ∃ msg : Message,
      buildMessage (StartKind.sys2
        ⟨d1 ++ '/' :: d2 ++ '/' :: y, hh ++ ':' :: mi ++ [sep, a, 'M'], rem⟩) n =
        some msg ∧
      msg.sender = "System".data ∧ msg.type = "system".data ∧
      msg.content = jsTrim rem := by
  have hcl := classify_sys_line d1 d2 y hh mi rem sep a hn1 hL1 hd1 hn2 hL2 hd2 hyl hy
    hnh hLh dhh hml dmi hsep ha hrne hrdot hnc
  refine ⟨hcl, ?_⟩
  obtain ⟨msg, hb, -, hcont, hsys⟩ := buildMessage_of_classify hcl n
  obtain ⟨hsender, htype⟩ := hsys _ rfl
  exact ⟨msg, hb, hsender, htype, hcont⟩

/-- C10 witness: a dialect-B line whose remainder holds a URL (a colon not
followed by a space) classifies as a system start capturing the whole
remainder. -/
theorem C10_witness :
    classifyLine ("1/2/25, 3:45 PM - Check https://example.com".data) =
      some (StartKind.sys2 ⟨"1/2/25".data, "3:45 PM".data,
        "Check https://example.com".data⟩) ∧
    hasColonSpace ("Check https://example.com".data) = false := by
  have h := (C10_no_colon_space_is_system ("1".data) ("2".data) ("25".data) ("3".data)
    ("45".data) ("Check https://example.com".data) ' ' 'P' 1 (by decide) (by decide)
    (by decide) (by decide) (by decide) (by decide) (by decide) (by decide) (by decide)
    (by decide) (by decide) (by decide) (by decide) (by decide) (Or.inr rfl) (by decide)
    (by decide) (by decide)).1
  exact ⟨h, by decide⟩

/-- C6: every successful parse emits ids msg_1, msg_2, ... один-based and
gap-free in emission order, and the instrumented parser shows the emitted
sequence preserves transcript order: the recorded start-line indices are
strictly increasing and erase to the plain parse. -/
theorem C6_ids_and_order (content : List Char) (msgs : List Message)
    (h : parseChatFile content = some msgs) :
    msgs.map Message.id = idSeq 1 msgs.length ∧
    ∃ pmsgs : List (Nat × Message), parseChatFileIdx content = some pmsgs ∧
      pmsgs.map Prod.snd = msgs ∧
      List.Chain' (· < ·) (pmsgs.map Prod.fst) := by
  constructor
  · have := processLines_ids (splitOn (fun c => c == '\n') (replaceCRLF content)) none 0
      msgs h (by intro m hm; cases hm)
    simpa using this
  · have he := processLinesIdx_erase (splitOn (fun c => c == '\n') (replaceCRLF content))
      none 0 0
    have hpc : processLines (splitOn (fun c => c == '\n') (replaceCRLF content)) none 0 =
        some msgs := h
    rw [show (Option.map Prod.snd (none : Option (Nat × Message))) = none from rfl] at he
    rw [hpc] at he
    rcases hidx : processLinesIdx (splitOn (fun c => c == '\n') (replaceCRLF content))
        none 0 0 with _ | pmsgs
    · rw [hidx] at he
      exact absurd he (by simp)
    · rw [hidx] at he
      simp only [Option.map_some'] at he
      injection he with he'
      obtain ⟨hch, -⟩ := processLinesIdx_chain
        (splitOn (fun c => c == '\n') (replaceCRLF content)) none 0 0 pmsgs hidx
        (by intro j m hm; cases hm)
      exact ⟨pmsgs, hidx, he', hch⟩

/-- C6 witness: a two-message transcript parses with ids msg_1, msg_2. -/
theorem C6_witness :
    parseChatFile ("[13/01/25, 11:52:46 AM] Alice: Hello\n[13/01/25, 11:53:00 AM] Bob: Hi".data) =
      some [⟨"msg_1".data, "2025-01-13T11:52:46".data, "Alice".data, "Hello".data,
              "text".data, none⟩,
            ⟨"msg_2".data, "2025-01-13T11:53:00".data, "Bob".data, "Hi".data,
              "text".data, none⟩] ∧
    [(⟨"msg_1".data, "2025-01-13T11:52:46".data, "Alice".data, "Hello".data,
        "text".data, none⟩ : Message),
     ⟨"msg_2".data, "2025-01-13T11:53:00".data, "Bob".data, "Hi".data,
        "text".data, none⟩].map Message.id = idSeq 1 2 := by
  have hp : parseChatFile
      ("[13/01/25, 11:52:46 AM] Alice: Hello\n[13/01/25, 11:53:00 AM] Bob: Hi".data) =
      some [⟨"msg_1".data, "2025-01-13T11:52:46".data, "Alice".data, "Hello".data,
              "text".data, none⟩,
            ⟨"msg_2".data, "2025-01-13T11:53:00".data, "Bob".data, "Hi".data,
              "text".data, none⟩] := by decide
  have hids := (C6_ids_and_order _ _ hp).1
  exact ⟨hp, by simpa using hids⟩

/-- C8: for a nonempty message sequence all of whose timestamps parse as
valid calendar timestamps, the extractor succeeds and its reported span is
the minimum and maximum of those timestamps truncated to the calendar
date. -/
theorem C8_date_span (msgs : List Message) (name : List Char) (dates : List JsDate)
    (hdates : msgs.map (fun m => jsDateParse m.timestamp) = dates.map some)
    (hne : msgs ≠ []) :
    ∃ md : Metadata, extractMetadata msgs name = some md ∧
      ∃ dmin dmax : JsDate, dmin ∈ dates ∧ dmax ∈ dates ∧
        md.rangeStart = some (renderDate dmin) ∧ md.rangeEnd = some (renderDate dmax) ∧
        ∀ x ∈ dates, dateKey dmin ≤ dateKey x ∧ dateKey x ≤ dateKey dmax := by
  cases msgs with
  | nil => exact absurd rfl hne
  | cons m0 rest =>
    cases dates with
    | nil => simp at hdates
    | cons d0 drest =>
      simp only [List.map_cons, List.cons.injEq] at hdates
      obtain ⟨h0, htail⟩ := hdates
      have hstep : metaStep ([], none, none) m0 =
          (if m0.type = "system".data then [] else [m0.sender],
            some (some d0), some (some d0)) := by
        simp only [metaStep, h0]
        by_cases hsys : m0.type = "system".data <;> simp [hsys]
      obtain ⟨hE, hL⟩ := metaFold_dates rest drest
        (if m0.type = "system".data then [] else [m0.sender]) d0 d0 htail
      have hmeta : extractMetadata (m0 :: rest) name = some
          ⟨name, (m0 :: rest).length,
            (rest.foldl metaStep
              (if m0.type = "system".data then [] else [m0.sender],
                some (some d0), some (some d0))).1,
            some (renderDate (drest.foldl minD d0)),
            some (renderDate (drest.foldl maxD d0))⟩ := by
        simp only [extractMetadata, List.foldl_cons, hstep, hE, hL, renderBound]
      obtain ⟨hminmem, hminle, hminall⟩ := foldl_minD_facts drest d0
      obtain ⟨hmaxmem, hmaxle, hmaxall⟩ := foldl_maxD_facts drest d0
      refine ⟨_, hmeta, drest.foldl minD d0, drest.foldl maxD d0, ?_, ?_, rfl, rfl, ?_⟩
      · rcases hminmem with he | hin
        · rw [he]
          exact List.mem_cons_self d0 drest
        · exact List.mem_cons_of_mem d0 hin
      · rcases hmaxmem with he | hin
        · rw [he]
          exact List.mem_cons_self d0 drest
        · exact List.mem_cons_of_mem d0 hin
      · intro x hx
        rcases List.mem_cons.mp hx with rfl | hx'
        · exact ⟨hminle, hmaxle⟩
        · exact ⟨hminall x hx', hmaxall x hx'⟩

/-- C8 witness: a two-message sequence including a system message yields
the span from the earlier to the later calendar date. -/
theorem C8_witness :
    ∃ md : Metadata,
      extractMetadata
        [⟨mkId 1, "2025-01-13T11:52:46".data, "Alice".data, "Hello".data, "text".data, none⟩,
         ⟨mkId 2, "2025-02-01T09:00:00".data, "System".data, "note".data, "system".data, none⟩]
        ("chat".data) = some md ∧
      md.rangeStart = some (renderDate ⟨2025, 1, 13, 11, 52, 46⟩) ∧
      md.rangeEnd = some (renderDate ⟨2025, 2, 1, 9, 0, 0⟩) := by
  obtain ⟨md, hmd, dmin, dmax, hminmem, hmaxmem, hstart, hend, hall⟩ :=
    C8_date_span
      [⟨mkId 1, "2025-01-13T11:52:46".data, "Alice".data, "Hello".data, "text".data, none⟩,
       ⟨mkId 2, "2025-02-01T09:00:00".data, "System".data, "note".data, "system".data, none⟩]
      ("chat".data) [⟨2025, 1, 13, 11, 52, 46⟩, ⟨2025, 2, 1, 9, 0, 0⟩]
      (by decide) (by decide)
  have hmin : dmin = ⟨2025, 1, 13, 11, 52, 46⟩ := by
    have h2 := (hall ⟨2025, 1, 13, 11, 52, 46⟩ (by decide)).1
    rcases List.mem_cons.mp hminmem with rfl | h
    · rfl
    · rcases List.mem_singleton.mp h with rfl
      exact absurd h2 (by decide)
  have hmax : dmax = ⟨2025, 2, 1, 9, 0, 0⟩ := by
    have h2 := (hall ⟨2025, 2, 1, 9, 0, 0⟩ (by decide)).2
    rcases List.mem_cons.mp hmaxmem with rfl | h
    · exact absurd h2 (by decide)
    · exact List.mem_singleton.mp h
  subst hmin
  subst hmax
  exact ⟨md, hmd, hstart, hend⟩

end WBP
